import Mathlib

/-!
# Completion counter with triggered operations (psmx) and shm bootstrap (smr)

A shallow embedding of `prov/psm/src/psmx_cntr.c` and `prov/shm/src/smr_init.c`.

The trigger list of a counter is a singly linked list of heap records.  The
embedding keeps the records in an explicit heap (address to cell) so that each
pointer statement of the source has one counterpart here: `p->next`,
`q->next = trigger`, `free(trigger)`.  A record that was passed to `free` is a
`freed` cell; reading or writing through a pointer to a freed or never
allocated cell has no defined meaning in C and ends the run with a `Fault`.
-/

namespace Psmx

/-- Modulus of `uint64_t` arithmetic. -/
def UINT64_MOD : Nat := 2 ^ 64

/-- Linux errno value of EBADF. -/
def EBADF : Int := 9

/-- Linux errno value of ENOMEM. -/
def ENOMEM : Int := 12

/-- Linux errno value of EINVAL. -/
def EINVAL : Int := 22

/-- Linux errno value of ETIMEDOUT. -/
def ETIMEDOUT : Int := 110

/-- Modelled from the spec: the operation tag of a trigger.  The enum lives in
psmx.h, which is not among the sources; the constructors are the case labels of
the switch in psmx_cntr_check_trigger, and `other` is any tag that switch has no
case for. -/
inductive psmx_triggered_op where
  | PSMX_TRIGGERED_SEND
  | PSMX_TRIGGERED_RECV
  | PSMX_TRIGGERED_TSEND
  | PSMX_TRIGGERED_TRECV
  | PSMX_TRIGGERED_WRITE
  | PSMX_TRIGGERED_READ
  | PSMX_TRIGGERED_ATOMIC_WRITE
  | PSMX_TRIGGERED_ATOMIC_READWRITE
  | PSMX_TRIGGERED_ATOMIC_COMPWRITE
  | other (tag : Nat)
  deriving DecidableEq, Repr

/-- The function the switch of psmx_cntr_check_trigger calls for a trigger. -/
inductive Callee where
  | _psmx_sendto
  | _psmx_recvfrom
  | _psmx_tagged_sendto
  | _psmx_tagged_recvfrom
  | _psmx_writeto
  | _psmx_readfrom
  | _psmx_atomic_writeto
  | _psmx_atomic_readwriteto
  | _psmx_atomic_compwriteto
  | psmx_debug
  deriving DecidableEq, Repr

/-- The switch on `trigger->op` (lines 50-165): which collaborator is called. -/
def callee_of : psmx_triggered_op → Callee
  | .PSMX_TRIGGERED_SEND => ._psmx_sendto
  | .PSMX_TRIGGERED_RECV => ._psmx_recvfrom
  | .PSMX_TRIGGERED_TSEND => ._psmx_tagged_sendto
  | .PSMX_TRIGGERED_TRECV => ._psmx_tagged_recvfrom
  | .PSMX_TRIGGERED_WRITE => ._psmx_writeto
  | .PSMX_TRIGGERED_READ => ._psmx_readfrom
  | .PSMX_TRIGGERED_ATOMIC_WRITE => ._psmx_atomic_writeto
  | .PSMX_TRIGGERED_ATOMIC_READWRITE => ._psmx_atomic_readwriteto
  | .PSMX_TRIGGERED_ATOMIC_COMPWRITE => ._psmx_atomic_compwriteto
  | .other _ => .psmx_debug

/-- Modelled from the spec: the wait object of a counter (an enum of the fabric
headers, which are not among the sources).  The two named constructors are the
enumerators the source compares against; `other` is any other value. -/
inductive fi_wait_obj where
  | FI_WAIT_NONE
  | FI_WAIT_MUT_COND
  | other (v : Int)
  deriving DecidableEq, Repr

/-- Modelled from the spec: the event kind of a counter (an enum of the fabric
headers, which are not among the sources); `other` is any value that is not
FI_CNTR_EVENTS_COMP. -/
inductive fi_cntr_events where
  | FI_CNTR_EVENTS_COMP
  | other (v : Int)
  deriving DecidableEq, Repr

/-- The fields of `struct psmx_trigger` the counter code reads: the tag, the
threshold and the link.  The per-operation payload is passed through verbatim
and is not modelled. -/
structure psmx_trigger where
  op : psmx_triggered_op
  threshold : Nat
  next : Option Nat
  deriving DecidableEq, Repr

/-- One heap cell that may hold a trigger record. -/
inductive Cell where
  | unallocated
  | live (t : psmx_trigger)
  | freed
  deriving DecidableEq, Repr

/-- The heap of trigger records: address to cell. -/
abbrev Heap := Nat → Cell

/-- The fields of `struct psmx_fid_cntr` used by the counter operations.
`trigger` is the head pointer of the trigger list (`none` is NULL). -/
structure psmx_fid_cntr where
  events : fi_cntr_events
  wait_obj : fi_wait_obj
  flags : Nat
  counter : Nat
  error_counter : Nat
  trigger : Option Nat
  deriving DecidableEq, Repr

/-- One pass through the switch of psmx_cntr_check_trigger: the record that was
unlinked, its tag and threshold, the collaborator called, and `cntr->counter` at
that moment. -/
structure Dispatch where
  trigger : Nat
  op : psmx_triggered_op
  callee : Callee
  threshold : Nat
  counter : Nat
  deriving DecidableEq, Repr

/-- An access the C semantics gives no meaning to, or a loop bound exceeded. -/
inductive Fault where
  | use_after_free (p : Nat)
  | wild_pointer (p : Nat)
  | out_of_fuel
  deriving DecidableEq, Repr

/-- The counter together with the memory it points into and the observable
effects so far.  `brk` is the number of trigger records allocated so far (the
next fresh address), `added` lists the records handed to psmx_cntr_add_trigger
in call order, `dispatched` the passes through the dispatch switch in order, and
`signals` counts the calls of pthread_cond_signal. -/
structure World where
  cntr : psmx_fid_cntr
  heap : Heap
  brk : Nat
  added : List Nat
  dispatched : List Dispatch
  signals : Nat

/-- Result of running counter code: the new world, or the fault that ended the
run together with the world at that moment. -/
abbrev Outcome := Except (Fault × World) World

/-- Read of the record behind pointer `p` (as in `p->threshold`, `p->next`). -/
def load (h : Heap) (p : Nat) : Except Fault psmx_trigger :=
  match h p with
  | .live t => .ok t
  | .freed => .error (.use_after_free p)
  | .unallocated => .error (.wild_pointer p)

/-- Assignment `a->next = v`. -/
def store_next (w : World) (a : Nat) (v : Option Nat) : Outcome :=
  match load w.heap a with
  | .ok t => .ok { w with heap := Function.update w.heap a (.live { t with next := v }) }
  | .error f => .error (f, w)

/-- The call `free(p)`. -/
def free (w : World) (p : Nat) : World :=
  { w with heap := Function.update w.heap p .freed }

/-- The while loop of psmx_cntr_check_trigger (lines 45-168).  The third
argument is the local variable `trigger`.  No statement of the loop body
assigns `trigger`: after `free(trigger)` the loop test and the threshold
comparison run again on the same pointer, which is why the recursive call
passes `some p` and not the new head `cntr->trigger`. -/
def check_trigger_loop : Nat → World → Option Nat → Outcome
  | _, w, none => .ok w
  | 0, w, some _ => .error (.out_of_fuel, w)
  | fuel + 1, w, some p =>
    match load w.heap p with
    | .error f => .error (f, w)
    | .ok t =>
      if w.cntr.counter < t.threshold then .ok w
      else
        let w1 : World := { w with cntr := { w.cntr with trigger := t.next } }
        let w2 : World := { w1 with dispatched := w1.dispatched ++
          [{ trigger := p, op := t.op, callee := callee_of t.op,
             threshold := t.threshold, counter := w1.cntr.counter }] }
        check_trigger_loop fuel (free w2 p) (some p)

/-- Source function psmx_cntr_check_trigger (lines 35-169).  The loop is given
`brk + 2` iterations, one more than any list of allocated records needs. -/
def psmx_cntr_check_trigger (w : World) : Outcome :=
  match w.cntr.trigger with
  | none => .ok w
  | some p => check_trigger_loop (w.brk + 2) w (some p)

/-- The while loop of psmx_cntr_add_trigger (lines 179-182): returns the final
values of the locals `(q, p)`. -/
def add_trigger_walk : Nat → Heap → Nat → Option Nat → Option Nat →
    Except Fault (Option Nat × Option Nat)
  | _, _, _, q, none => .ok (q, none)
  | 0, _, _, _, some _ => .error .out_of_fuel
  | fuel + 1, h, trigger, q, some a =>
    match load h a with
    | .error f => .error f
    | .ok pn =>
      match load h trigger with
      | .error f => .error f
      | .ok tn =>
        if pn.threshold ≤ tn.threshold then add_trigger_walk fuel h trigger (some a) pn.next
        else .ok (q, some a)

/-- The insertion step of psmx_cntr_add_trigger (lines 177-187), before trigger
evaluation runs. -/
def add_trigger_insert (w : World) (trigger : Nat) : Outcome :=
  match add_trigger_walk (w.brk + 1) w.heap trigger none w.cntr.trigger with
  | .error f => .error (f, w)
  | .ok (q, p) =>
    let linked : Outcome :=
      match q with
      | some qa => store_next w qa (some trigger)
      | none => .ok { w with cntr := { w.cntr with trigger := some trigger } }
    match linked with
    | .error e => .error e
    | .ok w1 => store_next w1 trigger p

/-- Source function psmx_cntr_add_trigger (lines 171-190). -/
def psmx_cntr_add_trigger (w : World) (trigger : Nat) : Outcome :=
  match add_trigger_insert w trigger with
  | .error e => .error e
  | .ok w1 => psmx_cntr_check_trigger w1

/-- Source function psmx_cntr_read (lines 192-199). -/
def psmx_cntr_read (w : World) : Nat := w.cntr.counter

/-- Source function psmx_cntr_readerr (lines 201-208). -/
def psmx_cntr_readerr (w : World) : Nat := w.cntr.error_counter

/-- The tail shared by psmx_cntr_add and psmx_cntr_set: trigger evaluation, then
pthread_cond_signal when the wait object is FI_WAIT_MUT_COND, then `return 0`. -/
def check_and_signal (w : World) : Except (Fault × World) (Int × World) :=
  match psmx_cntr_check_trigger w with
  | .error e => .error e
  | .ok w1 =>
    if w1.cntr.wait_obj = .FI_WAIT_MUT_COND then .ok (0, { w1 with signals := w1.signals + 1 })
    else .ok (0, w1)

/-- Source function psmx_cntr_add (lines 210-223); `value` is a uint64_t and the
addition is that of uint64_t. -/
def psmx_cntr_add (w : World) (value : Nat) : Except (Fault × World) (Int × World) :=
  check_and_signal
    { w with cntr := { w.cntr with counter := (w.cntr.counter + value % UINT64_MOD) % UINT64_MOD } }

/-- Source function psmx_cntr_set (lines 225-238); `value` is a uint64_t. -/
def psmx_cntr_set (w : World) (value : Nat) : Except (Fault × World) (Int × World) :=
  check_and_signal { w with cntr := { w.cntr with counter := value % UINT64_MOD } }

/-- Attributes passed to psmx_cntr_open. -/
structure fi_cntr_attr where
  events : fi_cntr_events
  wait_obj : fi_wait_obj
  deriving DecidableEq, Repr

/-- What a call of psmx_cntr_open did: its return value, the object stored
through the output pointer `*cntr` (`none` when it was not written), the number
of objects obtained from calloc, and whether the mutex and the condition
variable were initialised. -/
structure OpenResult where
  ret : Int
  cntr : Option psmx_fid_cntr
  allocated : Nat
  mutex_init : Bool
  cond_init : Bool
  deriving DecidableEq, Repr

/-- Source function psmx_cntr_open (lines 328-384).  `calloc_ok` tells whether
calloc returns memory. -/
def psmx_cntr_open (calloc_ok : Bool) (attr : fi_cntr_attr) : OpenResult :=
  match attr.events with
  | .other _ => { ret := -EINVAL, cntr := none, allocated := 0, mutex_init := false, cond_init := false }
  | .FI_CNTR_EVENTS_COMP =>
    match attr.wait_obj with
    | .other _ => { ret := -EINVAL, cntr := none, allocated := 0, mutex_init := false, cond_init := false }
    | wait_obj =>
      if calloc_ok then
        { ret := 0,
          cntr := some { events := attr.events, wait_obj := wait_obj, flags := 0,
                         counter := 0, error_counter := 0, trigger := none },
          allocated := 1,
          mutex_init := decide (wait_obj = .FI_WAIT_MUT_COND),
          cond_init := decide (wait_obj = .FI_WAIT_MUT_COND) }
      else { ret := -ENOMEM, cntr := none, allocated := 0, mutex_init := false, cond_init := false }

/-- A heap in which nothing has been allocated. -/
def empty_heap : Heap := fun _ => .unallocated

/-- The world around a counter that psmx_cntr_open has just produced: no
trigger record has been allocated and nothing has happened yet. -/
def fresh_world (c : psmx_fid_cntr) : World :=
  { cntr := c, heap := empty_heap, brk := 0, added := [], dispatched := [], signals := 0 }

/-- The world right after psmx_cntr_open (with calloc succeeding) on the given
attributes; `none` when the call fails and produces no counter. -/
def opened (attr : fi_cntr_attr) : Option World :=
  (psmx_cntr_open true attr).cntr.map fresh_world

/-- The caller side of a triggered operation: a trigger record is allocated at
the next fresh address and filled in; its address is what the caller passes to
psmx_cntr_add_trigger. -/
def alloc_trigger (w : World) (op : psmx_triggered_op) (threshold : Nat) : World × Nat :=
  ({ w with heap := Function.update w.heap w.brk (.live { op := op, threshold := threshold, next := none }),
            brk := w.brk + 1,
            added := w.added ++ [w.brk] }, w.brk)

/-- A call on a counter. -/
inductive Call where
  | add (value : Nat)
  | set (value : Nat)
  | add_trigger (op : psmx_triggered_op) (threshold : Nat)
  deriving DecidableEq, Repr

/-- One call applied to a world. -/
def step (w : World) : Call → Outcome
  | .add value => (psmx_cntr_add w value).map Prod.snd
  | .set value => (psmx_cntr_set w value).map Prod.snd
  | .add_trigger op threshold =>
    psmx_cntr_add_trigger (alloc_trigger w op threshold).1 (alloc_trigger w op threshold).2

/-- A sequence of calls applied in order; a fault ends the run. -/
def run (w : World) : List Call → Outcome
  | [] => .ok w
  | c :: cs =>
    match step w c with
    | .error e => .error e
    | .ok w1 => run w1 cs

/-- The world an outcome ends in, whether the run completed or faulted. -/
def final : Outcome → World
  | .ok w => w
  | .error e => e.2

/-- The fault of an outcome, if any. -/
def fault_of : Outcome → Option Fault
  | .ok _ => none
  | .error e => some e.1

/-- The addresses of the records on the list that starts at pointer `p`, in list
order; `none` when the list is broken or longer than `fuel`. -/
def trigger_list : Nat → Heap → Option Nat → Option (List Nat)
  | _, _, none => some []
  | 0, _, some _ => none
  | fuel + 1, h, some a =>
    match h a with
    | .live t => (trigger_list fuel h t.next).map (fun l => a :: l)
    | _ => none

/-- The trigger list of the counter, as the addresses of its records. -/
def queue (w : World) : Option (List Nat) :=
  trigger_list w.brk w.heap w.cntr.trigger

/-- The threshold stored in the heap record at address `a`. -/
def heap_threshold (h : Heap) (a : Nat) : Nat :=
  match h a with
  | .live t => t.threshold
  | _ => 0

/-- The threshold stored in the record at address `a`. -/
def threshold_at (w : World) (a : Nat) : Nat := heap_threshold w.heap a

/-- The thresholds of the queued records, in list order. -/
def queue_thresholds (w : World) : Option (List Nat) :=
  (queue w).map (fun l => l.map (threshold_at w))

/-- The records at the addresses `l`, followed along `next` from pointer `p`,
are live and lead to pointer `q`. -/
def ChainSeg (h : Heap) : Option Nat → List Nat → Option Nat → Prop
  | p, [], q => p = q
  | p, a :: l, q => p = some a ∧ ∃ t, h a = .live t ∧ ChainSeg h t.next l q

/-- The list that starts at pointer `p` consists of the live records at the
addresses `l` and ends with NULL. -/
def Chain (h : Heap) (p : Option Nat) (l : List Nat) : Prop := ChainSeg h p l none

/-- Queue order of two records: the threshold of the first is smaller, or the
thresholds are equal and the first record was allocated earlier. -/
def QueueOrder (h : Heap) (a b : Nat) : Prop :=
  heap_threshold h a < heap_threshold h b ∨
    (heap_threshold h a = heap_threshold h b ∧ a < b)

/-- Well-formedness of a world whose trigger list holds the records `l`: the
list is a chain of live records, every record on it was allocated, nothing
beyond `brk` is allocated, the list is in queue order, and the records were
handed over in the order of their addresses. -/
structure Wf (w : World) (l : List Nat) : Prop where
  chain : Chain w.heap w.cntr.trigger l
  bound : ∀ a ∈ l, a < w.brk
  unalloc : ∀ a, w.brk ≤ a → w.heap a = .unallocated
  sorted : l.Pairwise (QueueOrder w.heap)
  added : w.added = List.range w.brk

/-- The invariant of every outcome of a run that starts at a fresh counter.  A
completed run has dispatched nothing, its list holds every record added and all
of them are above the counter value.  A faulted run stopped at the second test
of the record it had just dispatched and freed. -/
def OutcomeInv : Outcome → Prop
  | .ok w => w.dispatched = [] ∧ ∃ l, Wf w l ∧
      (∀ a ∈ l, w.cntr.counter < heap_threshold w.heap a) ∧ (∀ a, a < w.brk → a ∈ l)
  | .error e => ∃ p d, e.1 = .use_after_free p ∧ e.2.dispatched = [d] ∧ d.trigger = p ∧
      d.threshold ≤ d.counter ∧ d.counter = e.2.cntr.counter ∧ e.2.heap p = .freed ∧
      ∃ l, Wf e.2 l ∧ p ∉ l ∧ (∀ a, a < e.2.brk → a = p ∨ a ∈ l)

/-- A call psmx_cntr_wait makes into its collaborators. -/
inductive WaitEvent where
  | psmx_cq_poll_mq
  | psmx_am_progress
  | pthread_mutex_lock
  | pthread_cond_wait
  | fi_wait_cond (timeout : Int)
  | pthread_mutex_unlock
  deriving DecidableEq, Repr

/-- What the surroundings of a waiting thread do.  `counter_after k` is the
value of `cntr->counter` after the k-th pass through the body of a wait loop
(other threads and the progress engine may have changed it); `cond_wait_returns
k` tells whether the k-th call of pthread_cond_wait returns (by a signal or a
spurious wake-up) or blocks for ever; `fi_wait_cond timeout` is the value
fi_wait_cond returns, `none` when it does not return. -/
structure WaitEnv where
  counter_after : Nat → Nat
  cond_wait_returns : Nat → Bool
  fi_wait_cond : Int → Option Int

/-- How a call of psmx_cntr_wait ends: it returns a value, it is blocked for
ever inside a collaborator, or it is still in its loop after the given number
of passes.  Each case carries the collaborator calls made so far. -/
inductive WaitOutcome where
  | returned (ret : Int) (trace : List WaitEvent)
  | blocked (trace : List WaitEvent)
  | spinning (trace : List WaitEvent)
  deriving DecidableEq, Repr

/-- The loop of the FI_WAIT_NONE case of psmx_cntr_wait (lines 249-252), followed
by `break` and the final `return 0`.  Arguments after the bound: passes made so
far, current `cntr->counter`, calls made so far. -/
def wait_none_loop (env : WaitEnv) (threshold : Nat) :
    Nat → Nat → Nat → List WaitEvent → WaitOutcome
  | 0, _, counter, tr =>
    if counter < threshold then .spinning tr else .returned 0 tr
  | fuel + 1, k, counter, tr =>
    if counter < threshold then
      wait_none_loop env threshold fuel (k + 1) (env.counter_after (k + 1))
        (tr ++ [.psmx_cq_poll_mq, .psmx_am_progress])
    else .returned 0 tr

/-- The statements after the loop of the FI_WAIT_MUT_COND case (lines 259-267):
`ret = fi_wait_cond(...)` is not part of the loop body (the while has no braces
and its body is the single pthread_cond_wait statement), then the mutex is
released and the function returns the constant 0, not `ret`. -/
def wait_mut_cond_tail (env : WaitEnv) (timeout : Int) (tr : List WaitEvent) : WaitOutcome :=
  match env.fi_wait_cond timeout with
  | none => .blocked (tr ++ [.fi_wait_cond timeout])
  | some _ => .returned 0 (tr ++ [.fi_wait_cond timeout, .pthread_mutex_unlock])

/-- The loop of the FI_WAIT_MUT_COND case of psmx_cntr_wait (lines 257-258) and
what follows it. -/
def wait_mut_cond_loop (env : WaitEnv) (threshold : Nat) (timeout : Int) :
    Nat → Nat → Nat → List WaitEvent → WaitOutcome
  | 0, _, counter, tr =>
    if counter < threshold then .spinning tr else wait_mut_cond_tail env timeout tr
  | fuel + 1, k, counter, tr =>
    if counter < threshold then
      if env.cond_wait_returns (k + 1) then
        wait_mut_cond_loop env threshold timeout fuel (k + 1) (env.counter_after (k + 1))
          (tr ++ [.pthread_cond_wait])
      else .blocked (tr ++ [.pthread_cond_wait])
    else wait_mut_cond_tail env timeout tr

/-- Source function psmx_cntr_wait (lines 240-268); `fuel` bounds the number of
passes through a wait loop that are followed. -/
def psmx_cntr_wait (env : WaitEnv) (fuel : Nat) (cntr : psmx_fid_cntr)
    (threshold : Nat) (timeout : Int) : WaitOutcome :=
  match cntr.wait_obj with
  | .FI_WAIT_NONE => wait_none_loop env threshold fuel 0 cntr.counter []
  | .FI_WAIT_MUT_COND =>
    wait_mut_cond_loop env threshold timeout fuel 0 cntr.counter [.pthread_mutex_lock]
  | .other _ => .returned (-EBADF) []

/-- The surroundings in which no other thread touches the counter: the value
stays `counter`, no signal or spurious wake-up ends an untimed wait, and a timed
wait runs into its deadline. -/
def quiet_env (counter : Nat) : WaitEnv :=
  { counter_after := fun _ => counter,
    cond_wait_returns := fun _ => false,
    fi_wait_cond := fun _ => some ETIMEDOUT }

/-- Whether a trace contains a condition wait, timed or untimed. -/
def is_cond_wait : WaitEvent → Bool
  | .pthread_cond_wait => true
  | .fi_wait_cond _ => true
  | _ => false

/-- The mathematically exact value the spec assigns to a sequence of add and set
calls, folded from the left starting at `acc`: a set replaces the value, an add
increases it by its delta (no wrap-around); add_trigger leaves it alone. -/
def exact_value : Nat → List Call → Nat
  | acc, [] => acc
  | acc, .add delta :: cs => exact_value (acc + delta) cs
  | _, .set v :: cs => exact_value v cs
  | acc, .add_trigger _ _ :: cs => exact_value acc cs

/-- Whether a call is an add or a set with a uint64_t argument. -/
def is_add_or_set : Call → Bool
  | .add value => decide (value < UINT64_MOD)
  | .set value => decide (value < UINT64_MOD)
  | .add_trigger _ _ => false

end Psmx

namespace Smr

/-- Linux value of NAME_MAX (limits.h). -/
def NAME_MAX : Nat := 255

/-- Value of FI_EINVAL: fi_errno.h defines it as EINVAL, which is 22 on Linux. -/
def FI_EINVAL : Int := 22

/-- Constants of the fabric and shm headers, which are not among the sources;
they are parameters of the embedding. -/
structure smr_consts where
  SMR_PREFIX : List Char
  SMR_PREFIX_NS : List Char
  FI_SOURCE : Nat
  FI_MR_VIRT_ADDR : Nat
  FI_ORDER_SAS : Nat
  SMR_INJECT_SIZE : Nat

/-- The null character. -/
def NUL : Char := Char.ofNat 0

/-- The characters of the C string stored in a buffer: those before the first
null character. -/
def cstr (s : List Char) : List Char := s.takeWhile (fun c => c ≠ NUL)

/-- Conversion of printf for a signed int. -/
def fmt_d (n : Int) : List Char :=
  if n < 0 then '-' :: Nat.toDigits 10 n.natAbs else Nat.toDigits 10 n.toNat

/-- Effect of snprintf with buffer size `size` (at least 1) on the characters
its format would produce: at most `size - 1` of them are stored, then a null
character. -/
def snprintf (size : Nat) (out : List Char) : List Char :=
  out.take (size - 1) ++ [NUL]

/-- Source function smr_resolve_addr (lines 40-64): the buffer stored through
`addr` and the length stored through `addrlen`.  `pid` is the value of getpid. -/
def smr_resolve_addr (K : smr_consts) (pid : Int) (node service : Option (List Char)) :
    List Char × Nat :=
  let temp_name : List Char :=
    match service, node with
    | some s, some n =>
      snprintf (NAME_MAX - 1) (cstr K.SMR_PREFIX_NS ++ cstr n ++ [':'] ++ cstr s)
    | some s, none => snprintf (NAME_MAX - 1) (cstr K.SMR_PREFIX_NS ++ cstr s)
    | none, some n => snprintf (NAME_MAX - 1) (cstr K.SMR_PREFIX ++ cstr n)
    | none, none => snprintf (NAME_MAX - 1) (cstr K.SMR_PREFIX ++ fmt_d pid)
  let addr : List Char := cstr temp_name ++ [NUL]
  let addrlen : Nat := (cstr addr).length + 1
  (addr.set (addrlen - 1) NUL, addrlen)

/-- What mmap returns: NULL, MAP_FAILED (the value by which mmap reports an
error, which is not NULL), or the address of a mapping. -/
inductive mmap_ret where
  | NULL
  | MAP_FAILED
  | mapped
  deriving DecidableEq, Repr

/-- What the system calls of one run of smr_check_cma_capability return: the
descriptor from shm_open, the result of ftruncate, the pointer from mmap,
whether fork failed (no child was created), the result of process_vm_readv in
the forked child, and `paddr_low`, the int that the first sizeof(int) bytes of
the segment hold when no child has written to it: the start of the address the
parent itself stored there at line 125. -/
structure ProbeEnv where
  shm_fd : Int
  ftruncate_ret : Int
  shared_memory : mmap_ret
  fork_failed : Bool
  nread : Int
  paddr_low : Int
  deriving DecidableEq, Repr

/-- Source function smr_check_cma_capability (lines 66-133); `none` means that
the calling process is killed by an invalid memory access inside the function.
The failure test after mmap (line 89) compares with NULL, so MAP_FAILED passes
it and the parent writes through that pointer at line 125.  With a mapping,
the child stores `nread` when it is -1 and 0 otherwise, and the parent returns
the int it reads back from the segment after wait; when fork failed the else
branch of line 120 runs all the same and reads back what the parent stored. -/
def smr_check_cma_capability (e : ProbeEnv) : Option Int :=
  if e.shm_fd < 0 then some (-FI_EINVAL)
  else if e.ftruncate_ret < 0 then some (-FI_EINVAL)
  else
    match e.shared_memory with
    | .NULL => some (-FI_EINVAL)
    | .MAP_FAILED => none
    | .mapped =>
      if e.fork_failed then some e.paddr_low
      else if e.nread = -1 then some e.nread
      else some 0

/-- The fields of `struct fi_info` (with its domain, tx and endpoint attributes)
that smr_getinfo reads or writes.  An address is a byte buffer, `none` is NULL. -/
structure fi_info where
  src_addr : Option (List Char)
  src_addrlen : Nat
  dest_addr : Option (List Char)
  dest_addrlen : Nat
  mr_mode : Nat
  msg_order : Nat
  max_msg_size : Nat
  max_order_raw_size : Nat
  max_order_waw_size : Nat
  max_order_war_size : Nat
  deriving DecidableEq, Repr

/-- The fields of the hints that smr_getinfo reads: `domain_attr->mr_mode` and
`tx_attr->msg_order`, each `none` when the attribute pointer is NULL. -/
structure fi_hints where
  mr_mode : Option Nat
  msg_order : Option Nat
  deriving DecidableEq, Repr

/-- The body of the for loop of smr_getinfo (lines 157-177) for one descriptor.
`fast_rma` and `cma_cap` are the C ints tested by `if (fast_rma)` and
`if (cma_cap != 0)`. -/
def smr_getinfo_cur (K : smr_consts) (pid : Int) (node service : Option (List Char))
    (flags : Nat) (fast_rma : Int) (cma_cap : Int) (cur : fi_info) : fi_info :=
  let cur1 : fi_info :=
    if Nat.land flags K.FI_SOURCE = 0 ∧ cur.dest_addr = none then
      { cur with dest_addr := some (smr_resolve_addr K pid node service).1,
                 dest_addrlen := (smr_resolve_addr K pid node service).2 }
    else cur
  let cur2 : fi_info :=
    if cur1.src_addr = none then
      if Nat.land flags K.FI_SOURCE ≠ 0 then
        { cur1 with src_addr := some (smr_resolve_addr K pid node service).1,
                    src_addrlen := (smr_resolve_addr K pid node service).2 }
      else
        { cur1 with src_addr := some (smr_resolve_addr K pid none none).1,
                    src_addrlen := (smr_resolve_addr K pid none none).2 }
    else cur1
  let cur3 : fi_info :=
    if fast_rma ≠ 0 then
      { cur2 with mr_mode := K.FI_MR_VIRT_ADDR, msg_order := K.FI_ORDER_SAS,
                  max_order_raw_size := 0, max_order_waw_size := 0, max_order_war_size := 0 }
    else cur2
  if cma_cap ≠ 0 then { cur3 with max_msg_size := K.SMR_INJECT_SIZE } else cur3

/-- Source function smr_getinfo (lines 135-180).  The collaborators are
parameters: `smr_fast_rma_enabled` is the predicate of smr.h, `util_getinfo` is
the return value and descriptor list of the generic discovery call, `probe`
are the system call results seen by the capability probe, `pid` is getpid.
The result is the return value and the list left in `*info`, or `none` when
the process is killed inside the capability probe. -/
def smr_getinfo (K : smr_consts) (smr_fast_rma_enabled : Nat → Nat → Int)
    (util_getinfo : Int × List fi_info) (probe : ProbeEnv) (pid : Int)
    (node service : Option (List Char)) (flags : Nat) (hints : Option fi_hints) :
    Option (Int × List fi_info) :=
  let mr_mode : Nat :=
    match hints with
    | some h => (match h.mr_mode with | some m => m | none => K.FI_MR_VIRT_ADDR)
    | none => K.FI_MR_VIRT_ADDR
  let msg_order : Nat :=
    match hints with
    | some h => (match h.msg_order with | some m => m | none => 0)
    | none => 0
  let fast_rma : Int := smr_fast_rma_enabled mr_mode msg_order
  if util_getinfo.1 ≠ 0 then some (util_getinfo.1, util_getinfo.2)
  else
    match smr_check_cma_capability probe with
    | none => none
    | some cma_cap =>
      some (0, util_getinfo.2.map (smr_getinfo_cur K pid node service flags fast_rma cma_cap))

end Smr

namespace Psmx

/-- Attributes of a completion counter without a wait object. -/
def example_attr : fi_cntr_attr :=
  { events := .FI_CNTR_EVENTS_COMP, wait_obj := .FI_WAIT_NONE }

/-- The counter psmx_cntr_open produces for `example_attr`. -/
def example_cntr : psmx_fid_cntr :=
  { events := .FI_CNTR_EVENTS_COMP, wait_obj := .FI_WAIT_NONE, flags := 0,
    counter := 0, error_counter := 0, trigger := none }

/-- The counter psmx_cntr_open produces when FI_WAIT_MUT_COND is requested. -/
def example_cntr_cond : psmx_fid_cntr :=
  { events := .FI_CNTR_EVENTS_COMP, wait_obj := .FI_WAIT_MUT_COND, flags := 0,
    counter := 0, error_counter := 0, trigger := none }

/-- Four triggered sends with thresholds 5, 3, 3, 8, added in that order. -/
def example_triggers : List Call :=
  [.add_trigger .PSMX_TRIGGERED_SEND 5, .add_trigger .PSMX_TRIGGERED_SEND 3,
   .add_trigger .PSMX_TRIGGERED_SEND 3, .add_trigger .PSMX_TRIGGERED_SEND 8]

end Psmx

namespace Smr

/-- Example values of the header constants. -/
def example_consts : smr_consts :=
  { SMR_PREFIX := "fi_shm://".toList, SMR_PREFIX_NS := "fi_ns://".toList,
    FI_SOURCE := 2 ^ 57, FI_MR_VIRT_ADDR := 16, FI_ORDER_SAS := 256,
    SMR_INJECT_SIZE := 4096 }

/-- A descriptor as the discovery collaborator may produce it: no addresses and
a maximal message size of 1000000. -/
def example_info : fi_info :=
  { src_addr := none, src_addrlen := 0, dest_addr := none, dest_addrlen := 0,
    mr_mode := 1, msg_order := 0, max_msg_size := 1000000,
    max_order_raw_size := 5, max_order_waw_size := 6, max_order_war_size := 7 }

/-- A probe in which the set-up succeeds and the cross-process read of the child
returns the 8 bytes it asked for. -/
def probe_success : ProbeEnv :=
  { shm_fd := 3, ftruncate_ret := 0, shared_memory := .mapped, fork_failed := false,
    nread := 8, paddr_low := 1000 }

/-- A probe in which the set-up succeeds and the cross-process read of the child
fails. -/
def probe_read_failed : ProbeEnv :=
  { shm_fd := 3, ftruncate_ret := 0, shared_memory := .mapped, fork_failed := false,
    nread := -1, paddr_low := 1000 }

/-- A probe whose set-up fails: shm_open returns no descriptor. -/
def probe_setup_failed : ProbeEnv :=
  { shm_fd := -1, ftruncate_ret := 0, shared_memory := .mapped, fork_failed := false,
    nread := 8, paddr_low := 1000 }

/-- A probe in which shm_open and ftruncate succeed and mmap fails: it returns
MAP_FAILED. -/
def probe_mmap_failed : ProbeEnv :=
  { shm_fd := 3, ftruncate_ret := 0, shared_memory := .MAP_FAILED, fork_failed := false,
    nread := 8, paddr_low := 1000 }

/-- A probe in which the set-up succeeds and fork fails. -/
def probe_fork_failed : ProbeEnv :=
  { shm_fd := 3, ftruncate_ret := 0, shared_memory := .mapped, fork_failed := true,
    nread := 8, paddr_low := 1000 }

/-- Whether a buffer holds no null character, as the characters of a C string do. -/
def is_cstring (s : List Char) : Bool := s.all (fun c => decide (c ≠ NUL))

/-- Whether an optional C string argument, when it is present, holds no null
character. -/
def is_cstring_opt : Option (List Char) → Bool
  | none => true
  | some s => is_cstring s

/-- The address string in the words of the spec (section 6, address synthesis
scheme), without any bound on its length: the namespace prefix, node, a colon
and service when both are given; the namespace prefix and service when only
service is given; the prefix and node when only node is given; the prefix and
the decimal process id when neither is given. -/
def spec_address (K : smr_consts) (pid : Int) (node service : Option (List Char)) : List Char :=
  match service, node with
  | some s, some n => K.SMR_PREFIX_NS ++ n ++ [':'] ++ s
  | some s, none => K.SMR_PREFIX_NS ++ s
  | none, some n => K.SMR_PREFIX ++ n
  | none, none => K.SMR_PREFIX ++ (toString pid).toList

/-- The memory-region mode smr_getinfo takes from the hints (line 144): that of
the hints when they and their domain attributes are present, FI_MR_VIRT_ADDR
otherwise. -/
def hints_mr_mode (K : smr_consts) (hints : Option fi_hints) : Nat :=
  match hints with
  | some h => (match h.mr_mode with | some m => m | none => K.FI_MR_VIRT_ADDR)
  | none => K.FI_MR_VIRT_ADDR

/-- The message order smr_getinfo takes from the hints (line 146): that of the
hints when they and their tx attributes are present, 0 otherwise. -/
def hints_msg_order (hints : Option fi_hints) : Nat :=
  match hints with
  | some h => (match h.msg_order with | some m => m | none => 0)
  | none => 0

/-- A node name of 300 characters. -/
def long_node : List Char := List.replicate 300 'a'

/-- A second descriptor of the collaborator: it carries both addresses and RMA
order sizes of its own. -/
def example_info_addressed : fi_info :=
  { src_addr := some "src".toList, src_addrlen := 3, dest_addr := some "dst".toList,
    dest_addrlen := 3, mr_mode := 3, msg_order := 9, max_msg_size := 65536,
    max_order_raw_size := 100, max_order_waw_size := 200, max_order_war_size := 300 }

end Smr

namespace Psmx

theorem check_trigger_loop_two (n : Nat) (w : World) (p : Nat) :
    check_trigger_loop (n + 2) w (some p) =
      match w.heap p with
      | .live t =>
        if w.cntr.counter < t.threshold then .ok w
        else .error (.use_after_free p,
          free { w with cntr := { w.cntr with trigger := t.next },
                        dispatched := w.dispatched ++
                          [{ trigger := p, op := t.op, callee := callee_of t.op,
                             threshold := t.threshold, counter := w.cntr.counter }] } p)
      | .freed => .error (.use_after_free p, w)
      | .unallocated => .error (.wild_pointer p, w) := by
  cases h : w.heap p with
  | live t =>
    simp only [check_trigger_loop, load, h]
    split_ifs with hc
    · rfl
    · simp [free, Function.update_same]
  | freed => simp [check_trigger_loop, load, h]
  | unallocated => simp [check_trigger_loop, load, h]

theorem heap_threshold_update_ne (h : Heap) (a b : Nat) (c : Cell) (hab : b ≠ a) :
    heap_threshold (Function.update h a c) b = heap_threshold h b := by
  simp [heap_threshold, Function.update_noteq hab]

theorem chainSeg_update (h : Heap) (a : Nat) (c : Cell) :
    ∀ (l : List Nat) (p q : Option Nat), ChainSeg h p l q → a ∉ l →
      ChainSeg (Function.update h a c) p l q := by
  intro l
  induction l with
  | nil => intro p q hc _; exact hc
  | cons b l ih =>
    intro p q hc ha
    obtain ⟨hp, t, ht, hrest⟩ := hc
    have hba : b ≠ a := fun e => ha (by simp [e])
    refine ⟨hp, t, ?_, ih _ _ hrest (fun hm => ha (List.mem_cons_of_mem _ hm))⟩
    rw [Function.update_noteq hba]; exact ht

theorem chainSeg_append (h : Heap) :
    ∀ (l1 l2 : List Nat) (p q : Option Nat),
      ChainSeg h p (l1 ++ l2) q ↔ ∃ m, ChainSeg h p l1 m ∧ ChainSeg h m l2 q := by
  intro l1
  induction l1 with
  | nil =>
    intro l2 p q
    constructor
    · intro hc; exact ⟨p, rfl, hc⟩
    · rintro ⟨m, hm, hc⟩
      have : p = m := hm
      subst this; exact hc
  | cons a l1 ih =>
    intro l2 p q
    constructor
    · rintro ⟨hp, t, ht, hrest⟩
      obtain ⟨m, h1, h2⟩ := (ih l2 t.next q).1 hrest
      exact ⟨m, ⟨hp, t, ht, h1⟩, h2⟩
    · rintro ⟨m, ⟨hp, t, ht, h1⟩, h2⟩
      exact ⟨hp, t, ht, (ih l2 t.next q).2 ⟨m, h1, h2⟩⟩


theorem add_trigger_walk_null (fuel : Nat) (h : Heap) (n : Nat) (q : Option Nat) :
    add_trigger_walk fuel h n q none = .ok (q, none) := by
  cases fuel <;> simp [add_trigger_walk]

theorem add_trigger_walk_spec (h : Heap) (n : Nat) (tn : psmx_trigger) (hn : h n = .live tn) :
    ∀ (l : List Nat) (fuel : Nat) (q0 p0 : Option Nat),
      Chain h p0 l → l.length ≤ fuel →
      ∃ l1 l2 q p, add_trigger_walk fuel h n q0 p0 = .ok (q, p) ∧ l = l1 ++ l2 ∧
        (∀ a ∈ l1, heap_threshold h a ≤ tn.threshold) ∧
        (∀ a, l2.head? = some a → tn.threshold < heap_threshold h a) ∧
        ((l1 = [] ∧ q = q0) ∨ (∃ l0 qa, l1 = l0 ++ [qa] ∧ q = some qa)) ∧
        ChainSeg h p0 l1 p ∧ Chain h p l2 := by
  intro l
  induction l with
  | nil =>
    intro fuel q0 p0 hc _
    have hp : p0 = none := hc
    subst hp
    exact ⟨[], [], q0, none, add_trigger_walk_null _ _ _ _, rfl, by simp, by simp,
      Or.inl ⟨rfl, rfl⟩, rfl, rfl⟩
  | cons a l ih =>
    intro fuel q0 p0 hc hf
    obtain ⟨hp, t, ht, hrest⟩ := hc
    subst hp
    obtain ⟨f, rfl⟩ : ∃ f, fuel = f + 1 := ⟨fuel - 1, by simp at hf; omega⟩
    have hf2 : l.length ≤ f := by simp at hf; omega
    by_cases hle : t.threshold ≤ tn.threshold
    · obtain ⟨l1, l2, q, p, hw, hl, h1, h2, hq, hs, hch⟩ := ih f (some a) t.next hrest hf2
      refine ⟨a :: l1, l2, q, p, ?_, by simp [hl], ?_, h2, ?_, ⟨rfl, t, ht, hs⟩, hch⟩
      · simp [add_trigger_walk, load, ht, hn, hle, hw]
      · intro b hb
        rcases List.mem_cons.1 hb with rfl | hb
        · simpa [heap_threshold, ht] using hle
        · exact h1 b hb
      · rcases hq with ⟨rfl, rfl⟩ | ⟨l0, qa, rfl, rfl⟩
        · exact Or.inr ⟨[], a, rfl, rfl⟩
        · exact Or.inr ⟨a :: l0, qa, rfl, rfl⟩
    · refine ⟨[], a :: l, q0, some a, ?_, rfl, by simp, ?_, Or.inl ⟨rfl, rfl⟩, rfl,
        ⟨rfl, t, ht, hrest⟩⟩
      · simp [add_trigger_walk, load, ht, hn, hle]
      · intro b hb
        simp at hb
        subst hb
        simpa [heap_threshold, ht] using hle

theorem chain_insert_after (h : Heap) (n qa : Nat) (tn tq : psmx_trigger) (p : Option Nat)
    (l2 : List Nat) (hq : h qa = .live tq) (hnq : n ≠ qa)
    (hc2 : Chain h p l2) (hn2 : n ∉ l2) (hq2 : qa ∉ l2) :
    ∀ (l0 : List Nat) (head : Option Nat),
      ChainSeg h head (l0 ++ [qa]) p → qa ∉ l0 → n ∉ l0 → (∀ a ∈ l0, a ∉ l2) →
      Chain (Function.update (Function.update h qa (.live { tq with next := some n }))
          n (.live { tn with next := p })) head (l0 ++ qa :: n :: l2) := by
  intro l0
  induction l0 with
  | nil =>
    intro head hs _ _ _
    obtain ⟨hhead, t, ht, hnext⟩ := hs
    have htq : t = tq := by rw [hq] at ht; injection ht with e; exact e.symm
    subst htq
    have hnext2 : t.next = p := hnext
    refine ⟨hhead, { t with next := some n }, ?_, rfl, { tn with next := p }, ?_, ?_⟩
    · rw [Function.update_noteq (Ne.symm hnq), Function.update_same]
    · rw [Function.update_same]
    · exact chainSeg_update _ _ _ _ _ _ (chainSeg_update _ _ _ _ _ _ hc2 hq2) hn2
  | cons a l0 ih =>
    intro head hs hqa hna hdis
    obtain ⟨hhead, t, ht, hnext⟩ := hs
    have haq : a ≠ qa := fun e => hqa (by simp [e])
    have han : a ≠ n := fun e => hna (by simp [e])
    refine ⟨hhead, t, ?_, ih t.next hnext (fun hm => hqa (List.mem_cons_of_mem _ hm))
      (fun hm => hna (List.mem_cons_of_mem _ hm))
      (fun b hb => hdis b (List.mem_cons_of_mem _ hb))⟩
    rw [Function.update_noteq han, Function.update_noteq haq]; exact ht

theorem chain_insert_head (h : Heap) (n : Nat) (tn : psmx_trigger) (p : Option Nat)
    (l2 : List Nat) (hc2 : Chain h p l2) (hn2 : n ∉ l2) :
    Chain (Function.update h n (.live { tn with next := p })) (some n) (n :: l2) := by
  refine ⟨rfl, { tn with next := p }, ?_, chainSeg_update _ _ _ _ _ _ hc2 hn2⟩
  rw [Function.update_same]


theorem store_next_live (w : World) (a : Nat) (v : Option Nat) (t : psmx_trigger)
    (ht : w.heap a = .live t) :
    store_next w a v =
      .ok { w with heap := Function.update w.heap a (.live { t with next := v }) } := by
  simp [store_next, load, ht]

theorem heap_threshold_set_next (h : Heap) (a : Nat) (t : psmx_trigger) (v : Option Nat)
    (ht : h a = .live t) (b : Nat) :
    heap_threshold (Function.update h a (.live { t with next := v })) b = heap_threshold h b := by
  by_cases hb : b = a
  · subst hb; simp [heap_threshold, ht]
  · exact heap_threshold_update_ne h a b _ hb

theorem queueOrder_irrefl (h : Heap) (a : Nat) : ¬ QueueOrder h a a := by
  intro hq
  rcases hq with hq | ⟨_, hq⟩ <;> omega

theorem queueOrder_le (h : Heap) (a b : Nat) (hq : QueueOrder h a b) :
    heap_threshold h a ≤ heap_threshold h b := by
  rcases hq with hq | ⟨hq, _⟩ <;> omega

theorem pairwise_queueOrder_congr (h1 h2 : Heap) (l : List Nat)
    (heq : ∀ a ∈ l, heap_threshold h2 a = heap_threshold h1 a)
    (hp : l.Pairwise (QueueOrder h1)) : l.Pairwise (QueueOrder h2) := by
  refine List.Pairwise.imp_of_mem ?_ hp
  intro a b ha hb hq
  unfold QueueOrder at hq ⊢
  rw [heq a ha, heq b hb]; exact hq

theorem pairwise_queueOrder_nodup (h : Heap) (l : List Nat)
    (hp : l.Pairwise (QueueOrder h)) : l.Nodup := by
  refine List.Pairwise.imp ?_ hp
  intro a b hq e
  subst e
  exact queueOrder_irrefl h a hq

theorem length_le_of_bound (l : List Nat) (n : Nat) (hnd : l.Nodup) (hb : ∀ a ∈ l, a < n) :
    l.length ≤ n := by
  have hsub : l.toFinset ⊆ Finset.range n := by
    intro a ha
    simp at ha
    simpa using hb a ha
  have := Finset.card_le_card hsub
  rw [List.toFinset_card_of_nodup hnd, Finset.card_range] at this
  exact this

theorem trigger_list_of_chain (h : Heap) :
    ∀ (l : List Nat) (fuel : Nat) (p : Option Nat), Chain h p l → l.length ≤ fuel →
      trigger_list fuel h p = some l := by
  intro l
  induction l with
  | nil =>
    intro fuel p hc _
    have hp : p = none := hc
    subst hp
    cases fuel <;> simp [trigger_list]
  | cons a l ih =>
    intro fuel p hc hf
    obtain ⟨hp, t, ht, hrest⟩ := hc
    subst hp
    obtain ⟨f, rfl⟩ : ∃ f, fuel = f + 1 := ⟨fuel - 1, by simp at hf; omega⟩
    have hf2 : l.length ≤ f := by simp at hf; omega
    simp [trigger_list, ht, ih f t.next hrest hf2]

theorem Wf.nodup {w : World} {l : List Nat} (hw : Wf w l) : l.Nodup :=
  pairwise_queueOrder_nodup _ _ hw.sorted

theorem Wf.length_le {w : World} {l : List Nat} (hw : Wf w l) : l.length ≤ w.brk :=
  length_le_of_bound l w.brk hw.nodup hw.bound

theorem Wf.queue_eq {w : World} {l : List Nat} (hw : Wf w l) : queue w = some l :=
  trigger_list_of_chain _ _ _ _ hw.chain hw.length_le

theorem sublist_pair_range (n a b : Nat) (hab : a < b) (hb : b < n) :
    List.Sublist [a, b] (List.range n) := by
  induction n with
  | zero => omega
  | succ n ih =>
    rw [List.range_succ]
    by_cases hbn : b = n
    · subst hbn
      have h1 : List.Sublist [a] (List.range b) :=
        List.singleton_sublist.2 (List.mem_range.2 hab)
      exact List.Sublist.append h1 (List.Sublist.refl [b])
    · exact (ih (by omega)).trans (List.sublist_append_left _ _)


theorem chainSeg_live (h : Heap) :
    ∀ (l : List Nat) (p q : Option Nat), ChainSeg h p l q → ∀ a ∈ l, ∃ t, h a = .live t := by
  intro l
  induction l with
  | nil => intro p q _ a ha; simp at ha
  | cons b l ih =>
    intro p q hc a ha
    obtain ⟨_, t, ht, hrest⟩ := hc
    rcases List.mem_cons.1 ha with rfl | ha
    · exact ⟨t, ht⟩
    · exact ih _ _ hrest a ha

theorem add_trigger_insert_spec (w : World) (l : List Nat) (n : Nat) (tn : psmx_trigger)
    (hw : Wf w l) (hn : w.heap n = .live tn) (hnl : n ∉ l) (hnb : n < w.brk) :
    ∃ h2 head l1 l2,
      add_trigger_insert w n =
        .ok { w with heap := h2, cntr := { w.cntr with trigger := head } } ∧
      l = l1 ++ l2 ∧
      (∀ a ∈ l1, heap_threshold w.heap a ≤ tn.threshold) ∧
      (∀ a ∈ l2, tn.threshold < heap_threshold w.heap a) ∧
      (∀ a, heap_threshold h2 a = heap_threshold w.heap a) ∧
      (∀ a, w.brk ≤ a → h2 a = .unallocated) ∧
      Chain h2 head (l1 ++ n :: l2) := by
  obtain ⟨l1, l2, q, p, hwalk, hl, h1, h2, hq, hs, hc2⟩ :=
    add_trigger_walk_spec w.heap n tn hn l (w.brk + 1) none w.cntr.trigger hw.chain
      (Nat.le_succ_of_le hw.length_le)
  have hnd : (l1 ++ l2).Nodup := hl ▸ hw.nodup
  have hsorted : (l1 ++ l2).Pairwise (QueueOrder w.heap) := hl ▸ hw.sorted
  have hn1 : n ∉ l1 := fun hm => hnl (hl ▸ List.mem_append_left _ hm)
  have hn2 : n ∉ l2 := fun hm => hnl (hl ▸ List.mem_append_right _ hm)
  have hall2 : ∀ a ∈ l2, tn.threshold < heap_threshold w.heap a := by
    cases l2 with
    | nil => intro a ha; simp at ha
    | cons b l2 =>
      intro a ha
      have hb := h2 b rfl
      rcases List.mem_cons.1 ha with rfl | ha
      · exact hb
      · have hp2 := (List.pairwise_append.1 hsorted).2.1
        have := queueOrder_le _ _ _ ((List.pairwise_cons.1 hp2).1 a ha)
        omega
  rcases hq with ⟨rfl, rfl⟩ | ⟨l0, qa, rfl, rfl⟩
  · have hp : w.cntr.trigger = p := hs
    refine ⟨Function.update w.heap n (.live { tn with next := p }), some n, [], l2, ?_, hl,
      h1, hall2, heap_threshold_set_next _ _ _ _ hn, ?_, ?_⟩
    · simp [add_trigger_insert, hwalk, store_next, load, hn]
    · intro a ha
      rw [Function.update_noteq (by omega)]
      exact hw.unalloc a ha
    · exact chain_insert_head _ _ _ _ _ hc2 hn2
  · have hqa_mem : qa ∈ l0 ++ [qa] := by simp
    obtain ⟨tq, htq⟩ := chainSeg_live _ _ _ _ hs qa hqa_mem
    have hqa_l : qa ∈ l := hl ▸ List.mem_append_left _ hqa_mem
    have hnq : n ≠ qa := fun e => hnl (e ▸ hqa_l)
    have hqb : qa < w.brk := hw.bound qa hqa_l
    have hnd' := List.nodup_append.1 hnd
    have hnd0 := List.nodup_append.1 hnd'.1
    have hq0 : qa ∉ l0 := fun hm => hnd0.2.2 hm (by simp)
    have hq2 : qa ∉ l2 := fun hm => hnd'.2.2 hqa_mem hm
    have hdis : ∀ a ∈ l0, a ∉ l2 := fun a ha hm =>
      hnd'.2.2 (List.mem_append_left _ ha) hm
    refine ⟨Function.update (Function.update w.heap qa (.live { tq with next := some n }))
        n (.live { tn with next := p }), w.cntr.trigger, l0 ++ [qa], l2, ?_, hl, h1, hall2,
      ?_, ?_, ?_⟩
    · simp [add_trigger_insert, hwalk, store_next, load, htq, hn,
        Function.update_noteq hnq]
    · intro a
      by_cases han : a = n
      · subst han
        simp [heap_threshold, hn]
      · rw [heap_threshold_update_ne _ _ _ _ han]
        exact heap_threshold_set_next _ _ _ _ htq a
    · intro a ha
      rw [Function.update_noteq (by omega), Function.update_noteq (by omega)]
      exact hw.unalloc a ha
    · have := chain_insert_after w.heap n qa tn tq p l2 htq hnq hc2 hn2 hq2 l0
        w.cntr.trigger hs hq0 (fun hm => hn1 (List.mem_append_left _ hm)) hdis
      simpa using this

theorem check_trigger_inv (w : World) (l : List Nat) (hw : Wf w l) (hd : w.dispatched = [])
    (hall : ∀ a, a < w.brk → a ∈ l) : OutcomeInv (psmx_cntr_check_trigger w) := by
  cases l with
  | nil =>
    have hp : w.cntr.trigger = none := hw.chain
    simp only [psmx_cntr_check_trigger, hp]
    exact ⟨hd, [], hw, by simp, hall⟩
  | cons a l =>
    obtain ⟨hp, t, ht, hrest⟩ := hw.chain
    have hsort := List.pairwise_cons.1 hw.sorted
    have hal : a ∉ l := fun hm => queueOrder_irrefl _ _ (hsort.1 a hm)
    have hab : a < w.brk := hw.bound a (by simp)
    simp only [psmx_cntr_check_trigger, hp, check_trigger_loop_two, ht]
    split_ifs with hc
    · refine ⟨hd, a :: l, hw, ?_, hall⟩
      intro b hb
      rcases List.mem_cons.1 hb with rfl | hb
      · simpa [heap_threshold, ht] using hc
      · have := queueOrder_le _ _ _ (hsort.1 b hb)
        have ha : heap_threshold w.heap a = t.threshold := by simp [heap_threshold, ht]
        omega
    · refine ⟨a, (⟨a, t.op, callee_of t.op, t.threshold, w.cntr.counter⟩ : Dispatch),
        rfl, ?_, rfl, ?_, rfl, ?_, l, ?_, hal, ?_⟩
      · simp [free, hd]
      · simpa using hc
      · simp [free]
      · refine ⟨?_, ?_, ?_, ?_, ?_⟩
        · exact chainSeg_update _ _ _ _ _ _ hrest hal
        · intro b hb; exact hw.bound b (List.mem_cons_of_mem _ hb)
        · intro b hb
          have hb2 : w.brk ≤ b := hb
          simp only [free]
          rw [Function.update_noteq (by omega)]
          exact hw.unalloc b hb2
        · refine pairwise_queueOrder_congr w.heap _ l ?_ hsort.2
          intro b hb
          exact heap_threshold_update_ne _ _ _ _ (fun e => hal (e ▸ hb))
        · exact hw.added
      · intro b hb
        rcases List.mem_cons.1 (hall b hb) with rfl | hm
        · exact Or.inl rfl
        · exact Or.inr hm


theorem outcomeInv_signals (w : World) (n : Nat) (h : OutcomeInv (.ok w)) :
    OutcomeInv (.ok { w with signals := n }) := by
  obtain ⟨hd, l, hw, h1, h2⟩ := h
  exact ⟨hd, l, ⟨hw.chain, hw.bound, hw.unalloc, hw.sorted, hw.added⟩, h1, h2⟩

theorem check_and_signal_inv (w : World) (l : List Nat) (hw : Wf w l) (hd : w.dispatched = [])
    (hall : ∀ a, a < w.brk → a ∈ l) :
    OutcomeInv ((check_and_signal w).map Prod.snd) := by
  have h := check_trigger_inv w l hw hd hall
  unfold check_and_signal
  cases hc : psmx_cntr_check_trigger w with
  | error e =>
    rw [hc] at h
    exact h
  | ok w1 =>
    rw [hc] at h
    by_cases hm : w1.cntr.wait_obj = .FI_WAIT_MUT_COND
    · simp only [hm, if_true]
      exact outcomeInv_signals w1 _ h
    · simp only [hm, if_false]
      exact h

theorem add_inv (w : World) (value : Nat) (h : OutcomeInv (.ok w)) :
    OutcomeInv ((psmx_cntr_add w value).map Prod.snd) := by
  obtain ⟨hd, l, hw, _, h2⟩ := h
  exact check_and_signal_inv _ l ⟨hw.chain, hw.bound, hw.unalloc, hw.sorted, hw.added⟩ hd h2

theorem set_inv (w : World) (value : Nat) (h : OutcomeInv (.ok w)) :
    OutcomeInv ((psmx_cntr_set w value).map Prod.snd) := by
  obtain ⟨hd, l, hw, _, h2⟩ := h
  exact check_and_signal_inv _ l ⟨hw.chain, hw.bound, hw.unalloc, hw.sorted, hw.added⟩ hd h2

theorem add_trigger_inv (w : World) (op : psmx_triggered_op) (threshold : Nat)
    (h : OutcomeInv (.ok w)) :
    OutcomeInv (psmx_cntr_add_trigger (alloc_trigger w op threshold).1
      (alloc_trigger w op threshold).2) := by
  obtain ⟨hd, l, hw, _, hall⟩ := h
  have hbl : w.brk ∉ l := fun hm => Nat.lt_irrefl _ (hw.bound _ hm)
  have hw1 : Wf (alloc_trigger w op threshold).1 l := by
    refine ⟨?_, ?_, ?_, ?_, ?_⟩
    · exact chainSeg_update _ _ _ _ _ _ hw.chain hbl
    · intro a ha
      exact Nat.lt_succ_of_lt (hw.bound a ha)
    · intro a ha
      have ha2 : w.brk + 1 ≤ a := ha
      simp only [alloc_trigger]
      rw [Function.update_noteq (by omega)]
      exact hw.unalloc a (by omega)
    · refine pairwise_queueOrder_congr w.heap _ l ?_ hw.sorted
      intro a ha
      exact heap_threshold_update_ne _ _ _ _ (fun e => hbl (e ▸ ha))
    · simp only [alloc_trigger]
      rw [hw.added, List.range_succ]
  have hlive : (alloc_trigger w op threshold).1.heap w.brk =
      .live { op := op, threshold := threshold, next := none } := by
    simp [alloc_trigger]
  obtain ⟨h2, head, l1, l2, hins, hl, hle, hgt, hthr, hun, hch⟩ :=
    add_trigger_insert_spec (alloc_trigger w op threshold).1 l w.brk _ hw1 hlive hbl
      (Nat.lt_succ_self _)
  have hthr_n : heap_threshold (alloc_trigger w op threshold).1.heap w.brk = threshold := by
    simp [heap_threshold, hlive]
  have hsorted : (l1 ++ l2).Pairwise (QueueOrder (alloc_trigger w op threshold).1.heap) :=
    hl ▸ hw1.sorted
  have hp := List.pairwise_append.1 hsorted
  have hnew : (l1 ++ w.brk :: l2).Pairwise
      (QueueOrder (alloc_trigger w op threshold).1.heap) := by
    refine List.pairwise_append.2 ⟨hp.1, List.pairwise_cons.2 ⟨?_, hp.2.1⟩, ?_⟩
    · intro b hb
      exact Or.inl (by rw [hthr_n]; exact hgt b hb)
    · intro a ha b hb
      rcases List.mem_cons.1 hb with rfl | hb
      · have hab : a < w.brk := hw.bound a (hl ▸ List.mem_append_left _ ha)
        have h1 := hle a ha
        rcases Nat.lt_or_ge (heap_threshold (alloc_trigger w op threshold).1.heap a)
          threshold with hlt | hge
        · exact Or.inl (by rw [hthr_n]; exact hlt)
        · exact Or.inr ⟨by rw [hthr_n]; exact Nat.le_antisymm h1 hge, hab⟩
      · exact hp.2.2 a ha b hb
  have hw2 : Wf { (alloc_trigger w op threshold).1 with
      heap := h2, cntr := { (alloc_trigger w op threshold).1.cntr with trigger := head } }
      (l1 ++ w.brk :: l2) := by
    refine ⟨hch, ?_, hun, ?_, hw1.added⟩
    · intro a ha
      rcases List.mem_append.1 ha with ha | ha
      · exact hw1.bound a (hl ▸ List.mem_append_left _ ha)
      · rcases List.mem_cons.1 ha with rfl | ha
        · exact Nat.lt_succ_self _
        · exact hw1.bound a (hl ▸ List.mem_append_right _ ha)
    · refine pairwise_queueOrder_congr _ h2 _ ?_ hnew
      intro a _
      exact hthr a
  have hall2 : ∀ a, a < w.brk + 1 → a ∈ l1 ++ w.brk :: l2 := by
    intro a ha
    rcases Nat.lt_or_ge a w.brk with hlt | hge
    · have := hall a hlt
      rw [hl] at this
      rcases List.mem_append.1 this with hm | hm
      · exact List.mem_append_left _ hm
      · exact List.mem_append_right _ (List.mem_cons_of_mem _ hm)
    · have : a = w.brk := by omega
      subst this
      simp
  have := check_trigger_inv _ _ hw2 hd hall2
  simp only [psmx_cntr_add_trigger]
  have hins2 : add_trigger_insert (alloc_trigger w op threshold).1
      (alloc_trigger w op threshold).2 = _ := hins
  rw [hins2]
  exact this

theorem step_inv (w : World) (c : Call) (h : OutcomeInv (.ok w)) : OutcomeInv (step w c) := by
  cases c with
  | add value => exact add_inv w value h
  | set value => exact set_inv w value h
  | add_trigger op threshold => exact add_trigger_inv w op threshold h

theorem run_inv (calls : List Call) :
    ∀ (w : World), OutcomeInv (.ok w) → OutcomeInv (run w calls) := by
  induction calls with
  | nil => intro w h; exact h
  | cons c cs ih =>
    intro w h
    have hs := step_inv w c h
    simp only [run]
    cases hc : step w c with
    | error e => rw [hc] at hs; exact hs
    | ok w1 => rw [hc] at hs; exact ih w1 hs

theorem opened_trigger (attr : fi_cntr_attr) (w0 : World) (hopen : opened attr = some w0) :
    w0.cntr.trigger = none ∧ w0.cntr.counter = 0 ∧ w0.heap = empty_heap ∧ w0.brk = 0 ∧
      w0.added = [] ∧ w0.dispatched = [] := by
  obtain ⟨ev, wo⟩ := attr
  cases ev with
  | other v => simp [opened, psmx_cntr_open] at hopen
  | FI_CNTR_EVENTS_COMP =>
    cases wo with
    | other v => simp [opened, psmx_cntr_open] at hopen
    | FI_WAIT_NONE =>
      simp [opened, psmx_cntr_open] at hopen
      subst hopen
      simp [fresh_world]
    | FI_WAIT_MUT_COND =>
      simp [opened, psmx_cntr_open] at hopen
      subst hopen
      simp [fresh_world]

theorem opened_inv (attr : fi_cntr_attr) (w0 : World) (hopen : opened attr = some w0) :
    OutcomeInv (.ok w0) := by
  obtain ⟨ht, _, hh, hb, ha, hd⟩ := opened_trigger attr w0 hopen
  refine ⟨hd, [], ⟨?_, by simp, ?_, List.Pairwise.nil, ?_⟩, by simp, ?_⟩
  · exact ht
  · intro a _; rw [hh]; rfl
  · rw [ha, hb]; rfl
  · intro a ha2; rw [hb] at ha2; omega

theorem final_wf (o : Outcome) (h : OutcomeInv o) : ∃ l, Wf (final o) l := by
  cases o with
  | ok w => obtain ⟨_, l, hw, _⟩ := h; exact ⟨l, hw⟩
  | error e => obtain ⟨_, _, _, _, _, _, _, _, l, hw, _⟩ := h; exact ⟨l, hw⟩

theorem final_dispatched (o : Outcome) (h : OutcomeInv o) :
    (final o).dispatched = [] ∨
      ∃ d, (final o).dispatched = [d] ∧ d.threshold ≤ d.counter := by
  cases o with
  | ok w => exact Or.inl h.1
  | error e =>
    obtain ⟨_, d, _, hd, _, hle, _⟩ := h
    exact Or.inr ⟨d, hd, hle⟩


theorem check_trigger_head_eligible (w : World) (a : Nat) (rest : List Nat)
    (hw : Wf w (a :: rest)) (hle : heap_threshold w.heap a ≤ w.cntr.counter) :
    ∃ e, psmx_cntr_check_trigger w = .error e ∧ e.1 = .use_after_free a ∧
      e.2.dispatched.map (fun d => d.trigger) = w.dispatched.map (fun d => d.trigger) ++ [a] ∧
      queue e.2 = some rest ∧ e.2.heap a = .freed := by
  obtain ⟨hp, t, ht, hrest⟩ := hw.chain
  have hsort := List.pairwise_cons.1 hw.sorted
  have hal : a ∉ rest := fun hm => queueOrder_irrefl _ _ (hsort.1 a hm)
  have hthr : heap_threshold w.heap a = t.threshold := by simp [heap_threshold, ht]
  have hc : ¬ w.cntr.counter < t.threshold := by omega
  have hlen : rest.length ≤ w.brk := by
    have := hw.length_le
    simp at this
    omega
  have heq : psmx_cntr_check_trigger w = .error (.use_after_free a,
      free { w with cntr := { w.cntr with trigger := t.next },
                    dispatched := w.dispatched ++
                      [(⟨a, t.op, callee_of t.op, t.threshold, w.cntr.counter⟩ : Dispatch)] } a) := by
    simp only [psmx_cntr_check_trigger, hp, check_trigger_loop_two, ht, hc, if_false]
  refine ⟨_, heq, rfl, ?_, ?_, ?_⟩
  · simp [free]
  · exact trigger_list_of_chain _ _ _ _ (chainSeg_update _ _ _ _ _ _ hrest hal) hlen
  · simp [free]

theorem check_and_signal_error (w : World) (e : Fault × World)
    (h : psmx_cntr_check_trigger w = .error e) :
    (check_and_signal w).map Prod.snd = .error e := by
  simp [check_and_signal, h, Except.map]

theorem set_head_eligible (attr : fi_cntr_attr) (w0 w : World) (calls : List Call) (v : Nat)
    (l : List Nat) (hopen : opened attr = some w0) (hrun : run w0 calls = .ok w)
    (hv : v < UINT64_MOD) (hq : queue w = some l) (hex : ∃ b ∈ l, threshold_at w b ≤ v) :
    ∃ a rest, l = a :: rest ∧
      fault_of (step w (.set v)) = some (.use_after_free a) ∧
      (final (step w (.set v))).dispatched.map (fun d => d.trigger) = [a] ∧
      queue (final (step w (.set v))) = some rest := by
  have hinv := run_inv calls w0 (opened_inv attr w0 hopen)
  rw [hrun] at hinv
  obtain ⟨hd, l1, hw, _, _⟩ := hinv
  have hl : l1 = l := by
    have := hw.queue_eq
    rw [hq] at this
    injection this with h1
    exact h1.symm
  subst hl
  obtain ⟨b, hb, hble⟩ := hex
  cases l1 with
  | nil => simp at hb
  | cons a rest =>
    have hsort := List.pairwise_cons.1 hw.sorted
    have hab : heap_threshold w.heap a ≤ v := by
      rcases List.mem_cons.1 hb with rfl | hb
      · exact hble
      · have := queueOrder_le _ _ _ (hsort.1 b hb)
        have h2 : heap_threshold w.heap b ≤ v := hble
        omega
    obtain ⟨e, he, hf, hdis, hq2, _⟩ := check_trigger_head_eligible
      { w with cntr := { w.cntr with counter := v % UINT64_MOD } } a rest
      ⟨hw.chain, hw.bound, hw.unalloc, hw.sorted, hw.added⟩
      (by rw [Nat.mod_eq_of_lt hv]; exact hab)
    have hstep : step w (.set v) = .error e := check_and_signal_error _ e he
    refine ⟨a, rest, rfl, ?_, ?_, ?_⟩
    · rw [hstep]; simp [fault_of, hf]
    · rw [hstep]
      have : (final (.error e : Outcome)) = e.2 := rfl
      rw [this, hdis]
      simp [hd]
    · rw [hstep]; exact hq2

theorem dispatched_then_faulted (attr : fi_cntr_attr) (w0 : World) (calls : List Call)
    (hopen : opened attr = some w0) (hne : (final (run w0 calls)).dispatched ≠ []) :
    ∃ p, fault_of (run w0 calls) = some (.use_after_free p) ∧
      (final (run w0 calls)).dispatched.map (fun d => d.trigger) = [p] ∧
      (final (run w0 calls)).heap p = .freed := by
  have hinv := run_inv calls w0 (opened_inv attr w0 hopen)
  cases hr : run w0 calls with
  | ok w =>
    rw [hr] at hinv hne
    exact absurd hinv.1 hne
  | error e =>
    rw [hr] at hinv
    obtain ⟨p, d, hf, hd, hdp, _, _, hfree, _⟩ := hinv
    refine ⟨p, by simp [fault_of, hf], ?_, hfree⟩
    have : (final (.error e : Outcome)) = e.2 := rfl
    rw [this, hd]
    simp [hdp]

theorem exact_value_mod (calls : List Call) :
    ∀ (a b : Nat), a % UINT64_MOD = b % UINT64_MOD →
      exact_value a calls % UINT64_MOD = exact_value b calls % UINT64_MOD := by
  induction calls with
  | nil => intro a b h; exact h
  | cons c cs ih =>
    intro a b h
    cases c with
    | add delta =>
      simp only [exact_value]
      exact ih _ _ (by rw [Nat.add_mod, h, ← Nat.add_mod])
    | set v => simp only [exact_value]
    | add_trigger op t =>
      simp only [exact_value]
      exact ih _ _ h

theorem check_and_signal_none (w : World) (ht : w.cntr.trigger = none) :
    ∃ w1, (check_and_signal w).map Prod.snd = .ok w1 ∧ w1.cntr.trigger = none ∧
      w1.cntr.counter = w.cntr.counter := by
  by_cases hm : w.cntr.wait_obj = .FI_WAIT_MUT_COND
  · exact ⟨{ w with signals := w.signals + 1 },
      by simp [check_and_signal, psmx_cntr_check_trigger, ht, hm, Except.map], ht, rfl⟩
  · exact ⟨w, by simp [check_and_signal, psmx_cntr_check_trigger, ht, hm, Except.map], ht, rfl⟩

theorem step_add_set (w : World) (c : Call) (ht : w.cntr.trigger = none)
    (hc : is_add_or_set c = true) :
    ∃ w1, step w c = .ok w1 ∧ w1.cntr.trigger = none ∧ w1.cntr.counter < UINT64_MOD ∧
      ∀ cs, exact_value w1.cntr.counter cs % UINT64_MOD =
        exact_value w.cntr.counter (c :: cs) % UINT64_MOD := by
  have hpos : 0 < UINT64_MOD := by unfold UINT64_MOD; positivity
  cases c with
  | add value =>
    have hv : value < UINT64_MOD := by simpa [is_add_or_set] using hc
    obtain ⟨w1, hs, ht1, hc1⟩ := check_and_signal_none
      { w with cntr := { w.cntr with counter := (w.cntr.counter + value % UINT64_MOD) % UINT64_MOD } } ht
    refine ⟨w1, hs, ht1, ?_, ?_⟩
    · rw [hc1]; exact Nat.mod_lt _ hpos
    · intro cs
      rw [hc1]
      simp only [exact_value]
      exact exact_value_mod cs _ _ (by simp [Nat.mod_eq_of_lt hv])
  | set value =>
    obtain ⟨w1, hs, ht1, hc1⟩ := check_and_signal_none
      { w with cntr := { w.cntr with counter := value % UINT64_MOD } } ht
    refine ⟨w1, hs, ht1, ?_, ?_⟩
    · rw [hc1]; exact Nat.mod_lt _ hpos
    · intro cs
      rw [hc1]
      simp only [exact_value]
      have hv : value < UINT64_MOD := by simpa [is_add_or_set] using hc
      exact exact_value_mod cs _ _ (by simp)
  | add_trigger op t => simp [is_add_or_set] at hc

theorem run_add_set (calls : List Call) :
    ∀ (w : World), w.cntr.trigger = none → w.cntr.counter < UINT64_MOD →
      (∀ c ∈ calls, is_add_or_set c = true) →
      ∃ w1, run w calls = .ok w1 ∧ w1.cntr.trigger = none ∧
        w1.cntr.counter = exact_value w.cntr.counter calls % UINT64_MOD := by
  induction calls with
  | nil =>
    intro w _ hlt _
    exact ⟨w, rfl, by assumption, by simp [exact_value, Nat.mod_eq_of_lt hlt]⟩
  | cons c cs ih =>
    intro w ht hlt hall
    obtain ⟨w1, hs, ht1, hlt1, hex⟩ := step_add_set w c ht (hall c (by simp))
    obtain ⟨w2, hr, ht2, hc2⟩ := ih w1 ht1 hlt1 (fun c hm => hall c (List.mem_cons_of_mem _ hm))
    refine ⟨w2, ?_, ht2, ?_⟩
    · simp only [run, hs]; exact hr
    · rw [hc2]; exact hex cs

/-- C1: on a counter opened with value 0 and an empty queue, over every sequence of
add, set and add_trigger calls, every trigger that psmx_cntr_check_trigger
dispatched was dispatched at a counter value at or above its threshold.  The
dispatches are those recorded up to the point where the run completed or
stopped at an undefined access. -/
theorem C1_dispatch_not_below_threshold (attr : fi_cntr_attr) (w0 : World) (calls : List Call)
    (hopen : opened attr = some w0) :
    ∀ d ∈ (final (run w0 calls)).dispatched, d.threshold ≤ d.counter := by
  intro d hd
  rcases final_dispatched _ (run_inv calls w0 (opened_inv attr w0 hopen)) with h | ⟨d1, h, hle⟩
  · rw [h] at hd; simp at hd
  · rw [h] at hd
    simp at hd
    subst hd
    exact hle

/-- C4: in every counter state reached from open by add, set and add_trigger
calls (the state in which the run completed or stopped at an undefined
access), the trigger list is a well-formed list whose thresholds ascend, and
two queued triggers with equal thresholds stand in the order in which they
were handed to add_trigger. -/
theorem C4_trigger_list_sorted_stable (attr : fi_cntr_attr) (w0 : World) (calls : List Call)
    (hopen : opened attr = some w0) :
    (final (run w0 calls)).added.Nodup ∧
    ∃ l, queue (final (run w0 calls)) = some l ∧
      l.Pairwise (fun a b =>
        threshold_at (final (run w0 calls)) a ≤ threshold_at (final (run w0 calls)) b ∧
        (threshold_at (final (run w0 calls)) a = threshold_at (final (run w0 calls)) b →
          List.Sublist [a, b] (final (run w0 calls)).added)) := by
  obtain ⟨l, hw⟩ := final_wf _ (run_inv calls w0 (opened_inv attr w0 hopen))
  refine ⟨by rw [hw.added]; exact List.nodup_range _, l, hw.queue_eq, ?_⟩
  refine List.Pairwise.imp_of_mem ?_ hw.sorted
  intro a b _ hb hq
  refine ⟨queueOrder_le _ _ _ hq, ?_⟩
  intro heq
  rcases hq with hlt | ⟨_, hab⟩
  · have : heap_threshold (final (run w0 calls)).heap a =
        heap_threshold (final (run w0 calls)).heap b := heq
    omega
  · rw [hw.added]
    exact sublist_pair_range _ a b hab (hw.bound b hb)

/-- C5 (amended): for every sequence of add and set calls with uint64_t arguments
on a freshly opened counter, the run completes and read() equals the exact
cumulative result (last set, or 0, plus the deltas added after it) reduced
modulo 2^64; it equals the exact result whenever that is below 2^64. -/
theorem C5_read_is_cumulative_mod_2_64 (attr : fi_cntr_attr) (w0 : World) (calls : List Call)
    (hopen : opened attr = some w0) (hcalls : ∀ c ∈ calls, is_add_or_set c = true) :
    ∃ w, run w0 calls = .ok w ∧
      psmx_cntr_read w = exact_value 0 calls % UINT64_MOD ∧
      (exact_value 0 calls < UINT64_MOD → psmx_cntr_read w = exact_value 0 calls) := by
  obtain ⟨ht, hc, _⟩ := opened_trigger attr w0 hopen
  obtain ⟨w, hr, _, hv⟩ := run_add_set calls w0 ht (by rw [hc]; unfold UINT64_MOD; positivity) hcalls
  rw [hc] at hv
  refine ⟨w, hr, hv, ?_⟩
  intro hlt
  show w.cntr.counter = _
  rw [hv, Nat.mod_eq_of_lt hlt]


/-- Witness of C1: a run in which a trigger with threshold 5 is dispatched at
counter value 7. -/
theorem C1_witness :
    (final (run (fresh_world example_cntr)
        [.add_trigger .PSMX_TRIGGERED_SEND 5, .set 7])).dispatched =
      [{ trigger := 0, op := .PSMX_TRIGGERED_SEND, callee := ._psmx_sendto,
         threshold := 5, counter := 7 }] ∧
    ∀ d ∈ (final (run (fresh_world example_cntr)
        [.add_trigger .PSMX_TRIGGERED_SEND 5, .set 7])).dispatched, d.threshold ≤ d.counter :=
  ⟨by decide, C1_dispatch_not_below_threshold example_attr (fresh_world example_cntr)
    [.add_trigger .PSMX_TRIGGERED_SEND 5, .set 7] rfl⟩

/-- C3: evaluation at the failing input.  With thresholds 5, 3, 3, 8 queued (list
order 3, 3, 5, 8), set(4) dispatches only the first trigger of threshold 3; the
loop then tests the record it has just freed, and the second trigger of
threshold 3 stays on the list.  In general, in every state a completed run from
open has reached, a set(v) that makes any queued trigger eligible dispatches
the head of the list alone and stops at the use of the freed head. -/
theorem C3_set_stops_after_first_dispatch :
    (opened example_attr = some (fresh_world example_cntr) ∧
    fault_of (run (fresh_world example_cntr) example_triggers) = none ∧
    queue (final (run (fresh_world example_cntr) example_triggers)) = some [1, 2, 0, 3] ∧
    queue_thresholds (final (run (fresh_world example_cntr) example_triggers)) =
      some [3, 3, 5, 8] ∧
    fault_of (run (fresh_world example_cntr) (example_triggers ++ [.set 4])) =
      some (.use_after_free 1) ∧
    (final (run (fresh_world example_cntr) (example_triggers ++ [.set 4]))).dispatched.map
      (fun d => (d.trigger, d.threshold, d.counter)) = [(1, 3, 4)] ∧
    queue (final (run (fresh_world example_cntr) (example_triggers ++ [.set 4]))) =
      some [2, 0, 3] ∧
    queue_thresholds (final (run (fresh_world example_cntr) (example_triggers ++ [.set 4]))) =
      some [3, 5, 8]) ∧
    (∀ (attr : fi_cntr_attr) (w0 w : World) (calls : List Call) (v : Nat) (l : List Nat),
      opened attr = some w0 → run w0 calls = .ok w → v < UINT64_MOD → queue w = some l →
      (∃ b ∈ l, threshold_at w b ≤ v) →
      ∃ a rest, l = a :: rest ∧
        fault_of (step w (.set v)) = some (.use_after_free a) ∧
        (final (step w (.set v))).dispatched.map (fun d => d.trigger) = [a] ∧
        queue (final (step w (.set v))) = some rest) := by
  refine ⟨⟨rfl, ?_, ?_, ?_, ?_, ?_, ?_, ?_⟩, ?_⟩
  · decide
  · decide
  · decide
  · decide
  · decide
  · decide
  · decide
  · intro attr w0 w calls v l hopen hrun hv hq hex
    exact set_head_eligible attr w0 w calls v l hopen hrun hv hq hex

/-- Witness of C4: after thresholds 5, 3, 3, 8 were added in that order the list
holds the records 1, 2, 0, 3. -/
theorem C4_witness :
    queue (final (run (fresh_world example_cntr) example_triggers)) = some [1, 2, 0, 3] ∧
    ((final (run (fresh_world example_cntr) example_triggers)).added.Nodup ∧
    ∃ l, queue (final (run (fresh_world example_cntr) example_triggers)) = some l ∧
      l.Pairwise (fun a b =>
        threshold_at (final (run (fresh_world example_cntr) example_triggers)) a ≤
          threshold_at (final (run (fresh_world example_cntr) example_triggers)) b ∧
        (threshold_at (final (run (fresh_world example_cntr) example_triggers)) a =
            threshold_at (final (run (fresh_world example_cntr) example_triggers)) b →
          List.Sublist [a, b] (final (run (fresh_world example_cntr) example_triggers)).added))) :=
  ⟨by decide, C4_trigger_list_sorted_stable example_attr (fresh_world example_cntr)
    example_triggers rfl⟩

/-- C5 as stated fails: after add(2^64 - 1) and add(1) on a fresh counter read()
is 0, while the exact cumulative result is 2^64. -/
theorem C5_counterexample :
    opened example_attr = some (fresh_world example_cntr) ∧
    fault_of (run (fresh_world example_cntr) [.add (2 ^ 64 - 1), .add 1]) = none ∧
    psmx_cntr_read (final (run (fresh_world example_cntr) [.add (2 ^ 64 - 1), .add 1])) = 0 ∧
    exact_value 0 [.add (2 ^ 64 - 1), .add 1] = 2 ^ 64 ∧
    psmx_cntr_read (final (run (fresh_world example_cntr) [.add (2 ^ 64 - 1), .add 1])) ≠
      exact_value 0 [.add (2 ^ 64 - 1), .add 1] := by
  refine ⟨rfl, ?_, ?_, ?_, ?_⟩ <;> decide

/-- Witness of C5 (amended): add 5, set 3, add 2^64 - 1 reads 2. -/
theorem C5_witness :
    exact_value 0 [.add 5, .set 3, .add (2 ^ 64 - 1)] % UINT64_MOD = 2 ∧
    ∃ w, run (fresh_world example_cntr) [.add 5, .set 3, .add (2 ^ 64 - 1)] = .ok w ∧
      psmx_cntr_read w = exact_value 0 [.add 5, .set 3, .add (2 ^ 64 - 1)] % UINT64_MOD ∧
      (exact_value 0 [.add 5, .set 3, .add (2 ^ 64 - 1)] < UINT64_MOD →
        psmx_cntr_read w = exact_value 0 [.add 5, .set 3, .add (2 ^ 64 - 1)]) :=
  ⟨by decide, C5_read_is_cumulative_mod_2_64 example_attr (fresh_world example_cntr)
    [.add 5, .set 3, .add (2 ^ 64 - 1)] rfl (by decide)⟩

/-- C6: evaluation at the failing input.  A trigger with threshold 5 is added and
the counter is advanced to 5: the trigger is dispatched and freed, and the next
access of the loop is to that same freed record.  In general, every run from
open in which a trigger was dispatched has ended in the use of that trigger
after it was freed. -/
theorem C6_freed_trigger_is_tested_again :
    (opened example_attr = some (fresh_world example_cntr) ∧
    fault_of (run (fresh_world example_cntr) [.add_trigger .PSMX_TRIGGERED_SEND 5, .add 5]) =
      some (.use_after_free 0) ∧
    (final (run (fresh_world example_cntr)
      [.add_trigger .PSMX_TRIGGERED_SEND 5, .add 5])).dispatched.map (fun d => d.trigger) = [0] ∧
    (final (run (fresh_world example_cntr)
      [.add_trigger .PSMX_TRIGGERED_SEND 5, .add 5])).heap 0 = .freed) ∧
    (∀ (attr : fi_cntr_attr) (w0 : World) (calls : List Call),
      opened attr = some w0 → (final (run w0 calls)).dispatched ≠ [] →
      ∃ p, fault_of (run w0 calls) = some (.use_after_free p) ∧
        (final (run w0 calls)).dispatched.map (fun d => d.trigger) = [p] ∧
        (final (run w0 calls)).heap p = .freed) := by
  refine ⟨⟨rfl, ?_, ?_, ?_⟩, ?_⟩
  · decide
  · decide
  · decide
  · intro attr w0 calls hopen hne
    exact dispatched_then_faulted attr w0 calls hopen hne

theorem wait_none_loop_ret (env : WaitEnv) (threshold : Nat) :
    ∀ (fuel k counter : Nat) (tr : List WaitEvent) (r : Int) (tr1 : List WaitEvent),
      wait_none_loop env threshold fuel k counter tr = .returned r tr1 → r = 0 := by
  intro fuel
  induction fuel with
  | zero =>
    intro k counter tr r tr1 h
    simp only [wait_none_loop] at h
    split_ifs at h
    injection h with h1 _
    exact h1.symm
  | succ fuel ih =>
    intro k counter tr r tr1 h
    simp only [wait_none_loop] at h
    split_ifs at h
    · exact ih _ _ _ _ _ h
    · injection h with h1 _
      exact h1.symm

theorem wait_mut_cond_tail_ret (env : WaitEnv) (timeout : Int) (tr : List WaitEvent) (r : Int)
    (tr1 : List WaitEvent) (h : wait_mut_cond_tail env timeout tr = .returned r tr1) : r = 0 := by
  unfold wait_mut_cond_tail at h
  cases hf : env.fi_wait_cond timeout with
  | none => rw [hf] at h; simp at h
  | some v =>
    rw [hf] at h
    injection h with h1 _
    exact h1.symm

theorem wait_mut_cond_loop_ret (env : WaitEnv) (threshold : Nat) (timeout : Int) :
    ∀ (fuel k counter : Nat) (tr : List WaitEvent) (r : Int) (tr1 : List WaitEvent),
      wait_mut_cond_loop env threshold timeout fuel k counter tr = .returned r tr1 → r = 0 := by
  intro fuel
  induction fuel with
  | zero =>
    intro k counter tr r tr1 h
    simp only [wait_mut_cond_loop] at h
    split_ifs at h
    exact wait_mut_cond_tail_ret _ _ _ _ _ h
  | succ fuel ih =>
    intro k counter tr r tr1 h
    simp only [wait_mut_cond_loop] at h
    split_ifs at h
    · exact ih _ _ _ _ _ h
    · exact wait_mut_cond_tail_ret _ _ _ _ _ h

theorem psmx_cntr_wait_ret (env : WaitEnv) (fuel : Nat) (cntr : psmx_fid_cntr)
    (threshold : Nat) (timeout : Int) (r : Int) (tr : List WaitEvent)
    (h : psmx_cntr_wait env fuel cntr threshold timeout = .returned r tr) :
    r = 0 ∨ r = -EBADF := by
  unfold psmx_cntr_wait at h
  cases hw : cntr.wait_obj with
  | FI_WAIT_NONE =>
    rw [hw] at h
    exact Or.inl (wait_none_loop_ret _ _ _ _ _ _ _ _ h)
  | FI_WAIT_MUT_COND =>
    rw [hw] at h
    exact Or.inl (wait_mut_cond_loop_ret _ _ _ _ _ _ _ _ _ h)
  | other v =>
    rw [hw] at h
    injection h with h1 _
    exact Or.inr h1.symm

/-- C7: evaluation at the failing input.  On a fresh FI_WAIT_MUT_COND counter with
no other thread at work, wait(threshold = 10, timeout = 0) is blocked in the
untimed pthread_cond_wait and never reaches the timed wait; and in no
surroundings at all does psmx_cntr_wait return the timeout error. -/
theorem C7_wait_never_returns_timeout :
    (∀ fuel, psmx_cntr_wait (quiet_env 0) (fuel + 1) example_cntr_cond 10 0 =
      .blocked [.pthread_mutex_lock, .pthread_cond_wait]) ∧
    (∀ env fuel cntr threshold timeout tr,
      psmx_cntr_wait env fuel cntr threshold timeout ≠ .returned (-ETIMEDOUT) tr) := by
  constructor
  · intro fuel
    simp [psmx_cntr_wait, example_cntr_cond, wait_mut_cond_loop, quiet_env]
  · intro env fuel cntr threshold timeout tr h
    rcases psmx_cntr_wait_ret _ _ _ _ _ _ _ h with h1 | h1
    · simp [ETIMEDOUT] at h1
    · simp [ETIMEDOUT, EBADF] at h1

/-- C8: evaluation at the failing input.  On a fresh FI_WAIT_MUT_COND counter,
wait(threshold = 0, timeout = 1000) calls the timed condition wait before it
returns 0; the same holds for every FI_WAIT_MUT_COND counter whose value has
reached the threshold, while a FI_WAIT_NONE counter returns 0 without any call. -/
theorem C8_timed_wait_although_threshold_reached :
    psmx_cntr_wait (quiet_env 0) 0 example_cntr_cond 0 1000 =
      .returned 0 [.pthread_mutex_lock, .fi_wait_cond 1000, .pthread_mutex_unlock] ∧
    (∀ env fuel cntr threshold timeout, cntr.wait_obj = .FI_WAIT_MUT_COND →
      threshold ≤ cntr.counter →
      psmx_cntr_wait env fuel cntr threshold timeout =
        wait_mut_cond_tail env timeout [.pthread_mutex_lock]) ∧
    (∀ env fuel cntr threshold timeout, cntr.wait_obj = .FI_WAIT_NONE →
      threshold ≤ cntr.counter →
      psmx_cntr_wait env fuel cntr threshold timeout = .returned 0 []) := by
  refine ⟨by decide, ?_, ?_⟩
  · intro env fuel cntr threshold timeout hw hle
    have hn : ¬ cntr.counter < threshold := Nat.not_lt.2 hle
    cases fuel <;> simp [psmx_cntr_wait, hw, wait_mut_cond_loop, hn]
  · intro env fuel cntr threshold timeout hw hle
    have hn : ¬ cntr.counter < threshold := Nat.not_lt.2 hle
    cases fuel <;> simp [psmx_cntr_wait, hw, wait_none_loop, hn]

/-- C9: psmx_cntr_open returns -EINVAL exactly when attr.events is not the
completion event kind or attr.wait_obj is neither FI_WAIT_NONE nor
FI_WAIT_MUT_COND, whether or not calloc would succeed; on that failure the
output handle is not written and nothing is allocated or initialised; and
with calloc succeeding every other call returns 0 with a counter whose wait
object is the requested one. -/
theorem C9_open_rejects_unsupported_attributes (calloc_ok : Bool) (attr : fi_cntr_attr) :
    ((psmx_cntr_open calloc_ok attr).ret = -EINVAL ↔
      (attr.events ≠ .FI_CNTR_EVENTS_COMP ∨
        (attr.wait_obj ≠ .FI_WAIT_NONE ∧ attr.wait_obj ≠ .FI_WAIT_MUT_COND))) ∧
    ((psmx_cntr_open calloc_ok attr).ret = -EINVAL →
      (psmx_cntr_open calloc_ok attr).cntr = none ∧
      (psmx_cntr_open calloc_ok attr).allocated = 0 ∧
      (psmx_cntr_open calloc_ok attr).mutex_init = false ∧
      (psmx_cntr_open calloc_ok attr).cond_init = false) ∧
    ((psmx_cntr_open true attr).ret ≠ -EINVAL →
      (psmx_cntr_open true attr).ret = 0 ∧
      ∃ c, (psmx_cntr_open true attr).cntr = some c ∧ c.wait_obj = attr.wait_obj ∧
        c.counter = 0 ∧ c.trigger = none) := by
  obtain ⟨ev, wo⟩ := attr
  cases ev <;> cases wo <;> cases calloc_ok <;>
    simp [psmx_cntr_open, EINVAL, ENOMEM]

end Psmx

namespace Smr

theorem smr_getinfo_cur_max_msg_size (K : smr_consts) (pid : Int)
    (node service : Option (List Char)) (flags : Nat) (fast_rma cma_cap : Int) (cur : fi_info) :
    (smr_getinfo_cur K pid node service flags fast_rma cma_cap cur).max_msg_size =
      if cma_cap ≠ 0 then K.SMR_INJECT_SIZE else cur.max_msg_size := by
  simp only [smr_getinfo_cur]
  split_ifs <;> rfl

theorem smr_getinfo_returns (K : smr_consts) (fre : Nat → Nat → Int) (util : Int × List fi_info)
    (probe : ProbeEnv) (pid : Int) (node service : Option (List Char)) (flags : Nat)
    (hints : Option fi_hints) (c : Int) (hutil : util.1 = 0)
    (hc : smr_check_cma_capability probe = some c) :
    smr_getinfo K fre util probe pid node service flags hints =
      some (0, util.2.map (smr_getinfo_cur K pid node service flags
        (fre (hints_mr_mode K hints) (hints_msg_order hints)) c)) := by
  rcases hints with _ | ⟨_ | m, _ | o⟩ <;>
    simp [smr_getinfo, hints_mr_mode, hints_msg_order, hutil, hc]

theorem smr_getinfo_killed (K : smr_consts) (fre : Nat → Nat → Int) (util : Int × List fi_info)
    (probe : ProbeEnv) (pid : Int) (node service : Option (List Char)) (flags : Nat)
    (hints : Option fi_hints) (hutil : util.1 = 0)
    (hc : smr_check_cma_capability probe = none) :
    smr_getinfo K fre util probe pid node service flags hints = none := by
  rcases hints with _ | ⟨_ | m, _ | o⟩ <;>
    simp [smr_getinfo, hutil, hc]

/-- C10 (amended): when the discovery collaborator succeeded and the capability
probe returns, smr_getinfo returns 0 and, for every descriptor it returns: if
the probe returned nonzero (as it does when its set-up fails with the error
code or the child's cross-process read fails) then max_msg_size is
SMR_INJECT_SIZE, whether or not fast RMA is enabled; if the probe returned 0,
which it does exactly when the set-up succeeded and either the child ran and
its read did not return -1 or no child was created and the segment read back
as 0, max_msg_size is the value the discovery collaborator produced. -/
theorem C10_inject_size_when_probe_fails (K : smr_consts) (fre : Nat → Nat → Int)
    (util : Int × List fi_info) (probe : ProbeEnv) (pid : Int)
    (node service : Option (List Char)) (flags : Nat) (hints : Option fi_hints)
    (hutil : util.1 = 0) (hprobe : smr_check_cma_capability probe ≠ none) :
    ∃ r, smr_getinfo K fre util probe pid node service flags hints = some r ∧ r.1 = 0 ∧
      (smr_check_cma_capability probe = some 0 ↔
        (0 ≤ probe.shm_fd ∧ 0 ≤ probe.ftruncate_ret ∧ probe.shared_memory = .mapped ∧
          ((probe.fork_failed = false ∧ probe.nread ≠ -1) ∨
            (probe.fork_failed = true ∧ probe.paddr_low = 0)))) ∧
      (smr_check_cma_capability probe ≠ some 0 →
        ∀ d ∈ r.2, d.max_msg_size = K.SMR_INJECT_SIZE) ∧
      (smr_check_cma_capability probe = some 0 →
        r.2.map (fun d => d.max_msg_size) = util.2.map (fun d => d.max_msg_size)) := by
  obtain ⟨c, hc⟩ := Option.ne_none_iff_exists'.1 hprobe
  refine ⟨_, smr_getinfo_returns K fre util probe pid node service flags hints c hutil hc,
    rfl, ?_, ?_, ?_⟩
  · unfold smr_check_cma_capability FI_EINVAL
    by_cases h1 : probe.shm_fd < 0
    · simp only [h1, if_true]
      constructor
      · intro h; simp at h
      · rintro ⟨h, _⟩; omega
    by_cases h2 : probe.ftruncate_ret < 0
    · simp only [h1, h2, if_true, if_false]
      constructor
      · intro h; simp at h
      · rintro ⟨_, h, _⟩; omega
    have h1p : 0 ≤ probe.shm_fd := Int.not_lt.1 h1
    have h2p : 0 ≤ probe.ftruncate_ret := Int.not_lt.1 h2
    simp only [h1, h2, if_false]
    cases hm : probe.shared_memory with
    | NULL => simp
    | MAP_FAILED => simp
    | mapped =>
      cases hf : probe.fork_failed with
      | true => simp [h1p, h2p]
      | false =>
        by_cases h4 : probe.nread = -1
        · simp [h1p, h2p, h4]
        · simp [h1p, h2p, h4]
  · intro hne d hd
    have hc0 : c ≠ 0 := fun e => hne (by rw [hc, e])
    simp only [List.mem_map] at hd
    obtain ⟨cur, _, rfl⟩ := hd
    rw [smr_getinfo_cur_max_msg_size]
    simp [hc0]
  · intro h0
    have hc0 : c = 0 := by rw [hc] at h0; injection h0
    simp only [List.map_map]
    apply List.map_congr_left
    intro cur _
    simp [smr_getinfo_cur_max_msg_size, hc0]

/-- Witness of C10 (amended): the child's read fails and the descriptor, which the
collaborator produced with size 1000000, is returned with SMR_INJECT_SIZE. -/
theorem C10_witness :
    (smr_getinfo example_consts (fun _ _ => 1) (0, [example_info]) probe_read_failed 77
        (some "h1".toList) none 0 none).map (fun r => r.2.map (fun d => d.max_msg_size)) =
      some [4096] ∧
    ∃ r, smr_getinfo example_consts (fun _ _ => 1) (0, [example_info]) probe_read_failed 77
        (some "h1".toList) none 0 none = some r ∧ r.1 = 0 ∧
      (smr_check_cma_capability probe_read_failed = some 0 ↔
        (0 ≤ probe_read_failed.shm_fd ∧ 0 ≤ probe_read_failed.ftruncate_ret ∧
          probe_read_failed.shared_memory = .mapped ∧
          ((probe_read_failed.fork_failed = false ∧ probe_read_failed.nread ≠ -1) ∨
            (probe_read_failed.fork_failed = true ∧ probe_read_failed.paddr_low = 0)))) ∧
      (smr_check_cma_capability probe_read_failed ≠ some 0 →
        ∀ d ∈ r.2, d.max_msg_size = example_consts.SMR_INJECT_SIZE) ∧
      (smr_check_cma_capability probe_read_failed = some 0 →
        r.2.map (fun d => d.max_msg_size) =
          (0, [example_info]).2.map (fun d => d.max_msg_size)) :=
  ⟨by decide, C10_inject_size_when_probe_fails example_consts (fun _ _ => 1)
    (0, [example_info]) probe_read_failed 77 (some "h1".toList) none 0 none
    rfl (by decide)⟩

/-- C10 as stated fails: the child's cross-process read succeeds (the probe
returns 0), and the descriptor keeps the size 1000000 of the collaborator
although SMR_INJECT_SIZE is 4096. -/
theorem C10_counterexample :
    smr_check_cma_capability probe_success = some 0 ∧
    (smr_getinfo example_consts (fun _ _ => 0) (0, [example_info]) probe_success 77
        (some "h1".toList) none 0 none).map (fun r => r.1) = some 0 ∧
    (smr_getinfo example_consts (fun _ _ => 0) (0, [example_info]) probe_success 77
        (some "h1".toList) none 0 none).map (fun r => r.2.map (fun d => d.max_msg_size)) =
      some [1000000] ∧
    example_consts.SMR_INJECT_SIZE = 4096 ∧
    ¬ (∀ r, smr_getinfo example_consts (fun _ _ => 0) (0, [example_info]) probe_success 77
        (some "h1".toList) none 0 none = some r →
      ∀ d ∈ r.2, d.max_msg_size = example_consts.SMR_INJECT_SIZE) := by
  refine ⟨by decide, by decide, by decide, by decide, ?_⟩
  intro h
  have h2 := h (0, [example_info].map
    (smr_getinfo_cur example_consts 77 (some "h1".toList) none 0 0 0)) (by decide)
  revert h2
  decide

end Smr

namespace Psmx

theorem check_trigger_loop_counter :
    ∀ (fuel : Nat) (w : World) (p : Option Nat),
      (final (check_trigger_loop fuel w p)).cntr.counter = w.cntr.counter := by
  intro fuel
  induction fuel with
  | zero =>
    intro w p
    cases p <;> simp [check_trigger_loop, final]
  | succ fuel ih =>
    intro w p
    cases p with
    | none => simp [check_trigger_loop, final]
    | some a =>
      simp only [check_trigger_loop]
      cases hl : load w.heap a with
      | error f => simp [final]
      | ok t =>
        simp only []
        split_ifs
        · simp [final]
        · rw [ih]
          simp [free]

theorem check_and_signal_counter (w : World) :
    (final ((check_and_signal w).map Prod.snd)).cntr.counter = w.cntr.counter := by
  have h : (final (psmx_cntr_check_trigger w)).cntr.counter = w.cntr.counter := by
    unfold psmx_cntr_check_trigger
    cases w.cntr.trigger with
    | none => simp [final]
    | some p => exact check_trigger_loop_counter _ _ _
  unfold check_and_signal
  cases hc : psmx_cntr_check_trigger w with
  | error e =>
    rw [hc] at h
    exact h
  | ok w1 =>
    rw [hc] at h
    by_cases hm : w1.cntr.wait_obj = .FI_WAIT_MUT_COND
    · simp only [hm, if_true]
      exact h
    · simp only [hm, if_false]
      exact h

theorem store_next_counter (w : World) (a : Nat) (v : Option Nat) :
    (final (store_next w a v)).cntr.counter = w.cntr.counter := by
  unfold store_next
  cases load w.heap a <;> simp [final]

theorem add_trigger_insert_counter (w : World) (trigger : Nat) :
    (final (add_trigger_insert w trigger)).cntr.counter = w.cntr.counter := by
  unfold add_trigger_insert
  cases add_trigger_walk (w.brk + 1) w.heap trigger none w.cntr.trigger with
  | error f => simp [final]
  | ok qp =>
    obtain ⟨q, p⟩ := qp
    cases q with
    | none =>
      simp only []
      rw [store_next_counter]
    | some qa =>
      simp only []
      have h1 := store_next_counter w qa (some trigger)
      cases hs : store_next w qa (some trigger) with
      | error e =>
        rw [hs] at h1
        simpa [final] using h1
      | ok w1 =>
        rw [hs] at h1
        simp only []
        rw [store_next_counter]
        exact h1

theorem add_trigger_counter (w : World) (trigger : Nat) :
    (final (psmx_cntr_add_trigger w trigger)).cntr.counter = w.cntr.counter := by
  unfold psmx_cntr_add_trigger
  have h1 := add_trigger_insert_counter w trigger
  cases hs : add_trigger_insert w trigger with
  | error e =>
    rw [hs] at h1
    simpa [final] using h1
  | ok w1 =>
    rw [hs] at h1
    simp only []
    have h2 : (final (psmx_cntr_check_trigger w1)).cntr.counter = w1.cntr.counter := by
      unfold psmx_cntr_check_trigger
      cases w1.cntr.trigger with
      | none => simp [final]
      | some p => exact check_trigger_loop_counter _ _ _
    rw [h2]
    exact h1

/-- C15 (amended): for every counter state and every uint64_t delta, read() after
add(delta) is the value before plus delta reduced modulo 2^64; it is at least
the value before whenever the sum stays below 2^64, and it is smaller than the
value before when the sum reaches 2^64 (the addition wraps around).  The
third call, add_trigger, leaves the value as it was. -/
theorem C15_add_is_monotonic_without_wrap (w : World) (delta : Nat)
    (hc : w.cntr.counter < UINT64_MOD) (hd : delta < UINT64_MOD) :
    psmx_cntr_read (final (step w (.add delta))) = (psmx_cntr_read w + delta) % UINT64_MOD ∧
    (psmx_cntr_read w + delta < UINT64_MOD →
      psmx_cntr_read w ≤ psmx_cntr_read (final (step w (.add delta)))) ∧
    (UINT64_MOD ≤ psmx_cntr_read w + delta →
      psmx_cntr_read (final (step w (.add delta))) < psmx_cntr_read w) ∧
    (∀ (op : psmx_triggered_op) (threshold : Nat),
      psmx_cntr_read (final (step w (.add_trigger op threshold))) = psmx_cntr_read w) := by
  have h : psmx_cntr_read (final (step w (.add delta))) =
      (psmx_cntr_read w + delta) % UINT64_MOD := by
    simp only [step, psmx_cntr_add, psmx_cntr_read]
    rw [check_and_signal_counter]
    simp [Nat.mod_eq_of_lt hd]
  refine ⟨h, ?_, ?_, ?_⟩
  · intro hlt
    rw [h, Nat.mod_eq_of_lt hlt]
    exact Nat.le_add_right _ _
  · intro hge
    rw [h]
    have hc2 : psmx_cntr_read w < UINT64_MOD := hc
    have hlt2 : psmx_cntr_read w + delta - UINT64_MOD < UINT64_MOD := by omega
    rw [Nat.mod_eq_sub_mod hge, Nat.mod_eq_of_lt hlt2]
    omega
  · intro op threshold
    simp only [step, psmx_cntr_read]
    rw [add_trigger_counter]
    rfl

/-- Witness of C15 (amended): add(3) at value 4 reads 7. -/
theorem C15_witness :
    psmx_cntr_read (final (step (final (run (fresh_world example_cntr) [.set 4])) (.add 3))) = 7 ∧
    (psmx_cntr_read (final (step (final (run (fresh_world example_cntr) [.set 4])) (.add 3))) =
      (psmx_cntr_read (final (run (fresh_world example_cntr) [.set 4])) + 3) % UINT64_MOD ∧
    (psmx_cntr_read (final (run (fresh_world example_cntr) [.set 4])) + 3 < UINT64_MOD →
      psmx_cntr_read (final (run (fresh_world example_cntr) [.set 4])) ≤
        psmx_cntr_read (final (step (final (run (fresh_world example_cntr) [.set 4]))
          (.add 3)))) ∧
    (UINT64_MOD ≤ psmx_cntr_read (final (run (fresh_world example_cntr) [.set 4])) + 3 →
      psmx_cntr_read (final (step (final (run (fresh_world example_cntr) [.set 4])) (.add 3))) <
        psmx_cntr_read (final (run (fresh_world example_cntr) [.set 4]))) ∧
    (∀ (op : psmx_triggered_op) (threshold : Nat),
      psmx_cntr_read (final (step (final (run (fresh_world example_cntr) [.set 4]))
        (.add_trigger op threshold))) =
        psmx_cntr_read (final (run (fresh_world example_cntr) [.set 4])))) :=
  ⟨by decide, C15_add_is_monotonic_without_wrap (final (run (fresh_world example_cntr) [.set 4]))
    3 (by decide) (by decide)⟩

/-- C15 as stated fails: on a fresh counter set to 2^64 - 1, add(1) makes read()
go from 2^64 - 1 down to 0. -/
theorem C15_counterexample :
    opened example_attr = some (fresh_world example_cntr) ∧
    fault_of (run (fresh_world example_cntr) [.set (2 ^ 64 - 1)]) = none ∧
    psmx_cntr_read (final (run (fresh_world example_cntr) [.set (2 ^ 64 - 1)])) = 2 ^ 64 - 1 ∧
    fault_of (step (final (run (fresh_world example_cntr) [.set (2 ^ 64 - 1)])) (.add 1)) =
      none ∧
    psmx_cntr_read (final (step (final (run (fresh_world example_cntr) [.set (2 ^ 64 - 1)]))
      (.add 1))) = 0 ∧
    ¬ (psmx_cntr_read (final (run (fresh_world example_cntr) [.set (2 ^ 64 - 1)])) ≤
      psmx_cntr_read (final (step (final (run (fresh_world example_cntr) [.set (2 ^ 64 - 1)]))
        (.add 1)))) := by
  refine ⟨rfl, ?_, ?_, ?_, ?_, ?_⟩ <;> decide

theorem outcome_ok_of_no_fault (o : Outcome) (h : fault_of o = none) : o = .ok (final o) := by
  cases o with
  | ok w => rfl
  | error e => simp [fault_of] at h

theorem completed_run_above (attr : fi_cntr_attr) (w0 w : World) (calls : List Call)
    (hopen : opened attr = some w0) (hrun : run w0 calls = .ok w) :
    ∃ l, queue w = some l ∧ ∀ a ∈ l, psmx_cntr_read w < threshold_at w a := by
  have hinv := run_inv calls w0 (opened_inv attr w0 hopen)
  rw [hrun] at hinv
  obtain ⟨_, l, hw, habove, _⟩ := hinv
  exact ⟨l, hw.queue_eq, habove⟩

theorem check_trigger_second_eligible (w : World) (a b : Nat) (rest : List Nat)
    (hw : Wf w (a :: b :: rest)) (hle : heap_threshold w.heap b ≤ w.cntr.counter) :
    ∃ e, psmx_cntr_check_trigger w = .error e ∧ e.1 = .use_after_free a ∧
      queue e.2 = some (b :: rest) ∧ e.2.cntr.counter = w.cntr.counter ∧
      heap_threshold e.2.heap b = heap_threshold w.heap b := by
  obtain ⟨hp, t, ht, hrest⟩ := hw.chain
  have hsort := List.pairwise_cons.1 hw.sorted
  have hal : a ∉ b :: rest := fun hm => queueOrder_irrefl _ _ (hsort.1 a hm)
  have hab := queueOrder_le _ _ _ (hsort.1 b (List.mem_cons_self _ _))
  have hthr : heap_threshold w.heap a = t.threshold := by simp [heap_threshold, ht]
  have hc : ¬ w.cntr.counter < t.threshold := by omega
  have hlen : (b :: rest).length ≤ w.brk := by
    have := hw.length_le
    simp at this
    simp
    omega
  have hba : b ≠ a := fun h => hal (h ▸ List.mem_cons_self _ _)
  have heq : psmx_cntr_check_trigger w = .error (.use_after_free a,
      free { w with cntr := { w.cntr with trigger := t.next },
                    dispatched := w.dispatched ++
                      [(⟨a, t.op, callee_of t.op, t.threshold, w.cntr.counter⟩ : Dispatch)] } a) := by
    simp only [psmx_cntr_check_trigger, hp, check_trigger_loop_two, ht, hc, if_false]
  refine ⟨_, heq, rfl, ?_, rfl, ?_⟩
  · exact trigger_list_of_chain _ _ _ _ (chainSeg_update _ _ _ _ _ _ hrest hal) hlen
  · exact heap_threshold_update_ne _ _ _ _ hba

theorem set_second_eligible (attr : fi_cntr_attr) (w0 w : World) (calls : List Call) (v : Nat)
    (a b : Nat) (rest : List Nat) (hopen : opened attr = some w0) (hrun : run w0 calls = .ok w)
    (hv : v < UINT64_MOD) (hq : queue w = some (a :: b :: rest)) (hle : threshold_at w b ≤ v) :
    fault_of (step w (.set v)) = some (.use_after_free a) ∧
      queue (final (step w (.set v))) = some (b :: rest) ∧
      psmx_cntr_read (final (step w (.set v))) = v ∧
      threshold_at (final (step w (.set v))) b ≤ psmx_cntr_read (final (step w (.set v))) := by
  have hinv := run_inv calls w0 (opened_inv attr w0 hopen)
  rw [hrun] at hinv
  obtain ⟨_, l1, hw, _, _⟩ := hinv
  have hl : l1 = a :: b :: rest := by
    have := hw.queue_eq
    rw [hq] at this
    injection this with h1
    exact h1.symm
  subst hl
  obtain ⟨e, he, hf, hq2, hcnt, hthr⟩ := check_trigger_second_eligible
    { w with cntr := { w.cntr with counter := v % UINT64_MOD } } a b rest
    ⟨hw.chain, hw.bound, hw.unalloc, hw.sorted, hw.added⟩
    (by rw [Nat.mod_eq_of_lt hv]; exact hle)
  have hstep : step w (.set v) = .error e := check_and_signal_error _ e he
  have hfin : (final (.error e : Outcome)) = e.2 := rfl
  have hread : e.2.cntr.counter = v := by rw [hcnt]; exact Nat.mod_eq_of_lt hv
  rw [hstep, hfin]
  refine ⟨by simp [fault_of, hf], hq2, hread, ?_⟩
  show heap_threshold e.2.heap b ≤ e.2.cntr.counter
  rw [hthr, hread]
  exact hle

/-- C16: evaluation at the failing input.  With thresholds 5, 3, 3, 8 queued (list
order 3, 3, 5, 8), set(4) dispatches the first trigger of threshold 3, frees it
and tests the freed record again: the call stops at that undefined access and
the second trigger of threshold 3 is left on the list at value 4.  In general,
in every state a completed run from open has reached, a set(v) that makes the
second trigger of the list eligible stops at the use of the freed head with
that second trigger still queued, its threshold at or below the value.  In
the states in which every call of the run has returned, every queued
threshold is above the value. -/
theorem C16_eligible_trigger_left_at_fault :
    (opened example_attr = some (fresh_world example_cntr) ∧
    fault_of (run (fresh_world example_cntr) example_triggers) = none ∧
    queue_thresholds (final (run (fresh_world example_cntr) example_triggers)) =
      some [3, 3, 5, 8] ∧
    psmx_cntr_read (final (run (fresh_world example_cntr) example_triggers)) = 0 ∧
    fault_of (run (fresh_world example_cntr) (example_triggers ++ [.set 4])) =
      some (.use_after_free 1) ∧
    psmx_cntr_read (final (run (fresh_world example_cntr) (example_triggers ++ [.set 4]))) =
      4 ∧
    queue_thresholds (final (run (fresh_world example_cntr) (example_triggers ++ [.set 4]))) =
      some [3, 5, 8] ∧
    ¬ ∃ l, queue (final (run (fresh_world example_cntr) (example_triggers ++ [.set 4]))) =
        some l ∧
      ∀ a ∈ l, psmx_cntr_read (final (run (fresh_world example_cntr)
          (example_triggers ++ [.set 4]))) <
        threshold_at (final (run (fresh_world example_cntr) (example_triggers ++ [.set 4])))
          a) ∧
    (∀ (attr : fi_cntr_attr) (w0 w : World) (calls : List Call) (v a b : Nat) (rest : List Nat),
      opened attr = some w0 → run w0 calls = .ok w → v < UINT64_MOD →
      queue w = some (a :: b :: rest) → threshold_at w b ≤ v →
      fault_of (step w (.set v)) = some (.use_after_free a) ∧
        queue (final (step w (.set v))) = some (b :: rest) ∧
        psmx_cntr_read (final (step w (.set v))) = v ∧
        threshold_at (final (step w (.set v))) b ≤
          psmx_cntr_read (final (step w (.set v)))) ∧
    (∀ (attr : fi_cntr_attr) (w0 w : World) (calls : List Call),
      opened attr = some w0 → run w0 calls = .ok w →
      ∃ l, queue w = some l ∧ ∀ a ∈ l, psmx_cntr_read w < threshold_at w a) := by
  refine ⟨⟨rfl, ?_, ?_, ?_, ?_, ?_, ?_, ?_⟩, ?_, ?_⟩
  · decide
  · decide
  · decide
  · decide
  · decide
  · decide
  · rintro ⟨l, hl, hall⟩
    have hq : queue (final (run (fresh_world example_cntr) (example_triggers ++ [.set 4]))) =
        some [2, 0, 3] := by decide
    rw [hq] at hl
    injection hl with hl
    subst hl
    have h2 := hall 2 (by simp)
    have hr : psmx_cntr_read (final (run (fresh_world example_cntr)
        (example_triggers ++ [.set 4]))) = 4 := by decide
    have ht : threshold_at (final (run (fresh_world example_cntr)
        (example_triggers ++ [.set 4]))) 2 = 3 := by decide
    rw [hr, ht] at h2
    omega
  · intro attr w0 w calls v a b rest hopen hrun hv hq hle
    exact set_second_eligible attr w0 w calls v a b rest hopen hrun hv hq hle
  · intro attr w0 w calls hopen hrun
    exact completed_run_above attr w0 w calls hopen hrun


theorem chain_of_trigger_list (h : Heap) :
    ∀ (fuel : Nat) (p : Option Nat) (l : List Nat), trigger_list fuel h p = some l →
      Chain h p l ∧ l.length ≤ fuel := by
  intro fuel
  induction fuel with
  | zero =>
    intro p l hl
    cases p with
    | none =>
      simp [trigger_list] at hl
      subst hl
      exact ⟨rfl, Nat.le_refl _⟩
    | some a => simp [trigger_list] at hl
  | succ fuel ih =>
    intro p l hl
    cases p with
    | none =>
      simp [trigger_list] at hl
      subst hl
      exact ⟨rfl, Nat.zero_le _⟩
    | some a =>
      simp only [trigger_list] at hl
      cases hc : h a with
      | live t =>
        rw [hc] at hl
        simp only [Option.map_eq_some'] at hl
        obtain ⟨l1, hl1, rfl⟩ := hl
        obtain ⟨hch, hlen⟩ := ih t.next l1 hl1
        exact ⟨⟨rfl, t, hc, hch⟩, Nat.succ_le_succ hlen⟩
      | freed => rw [hc] at hl; simp at hl
      | unallocated => rw [hc] at hl; simp at hl

theorem chain_unique (h : Heap) :
    ∀ (l1 l2 : List Nat) (p : Option Nat), Chain h p l1 → Chain h p l2 → l1 = l2 := by
  intro l1
  induction l1 with
  | nil =>
    intro l2 p h1 h2
    have hp : p = none := h1
    subst hp
    cases l2 with
    | nil => rfl
    | cons b l2 =>
      obtain ⟨hb, _⟩ := h2
      simp at hb
  | cons a l1 ih =>
    intro l2 p h1 h2
    obtain ⟨hp, t, ht, hrest⟩ := h1
    subst hp
    cases l2 with
    | nil =>
      have : some a = none := h2
      simp at this
    | cons b l2 =>
      obtain ⟨hb, t2, ht2, hrest2⟩ := h2
      have hab : a = b := by injection hb
      subst hab
      have htt : t = t2 := by rw [ht] at ht2; injection ht2
      subst htt
      rw [ih l2 t.next hrest hrest2]

theorem chain_nodup (h : Heap) :
    ∀ (l : List Nat) (p : Option Nat), Chain h p l → l.Nodup := by
  intro l
  induction l with
  | nil => intro p _; exact List.nodup_nil
  | cons a l ih =>
    intro p hc
    obtain ⟨hp, t, ht, hrest⟩ := hc
    refine List.nodup_cons.2 ⟨?_, ih t.next hrest⟩
    intro hmem
    obtain ⟨x, z, hxz⟩ := List.append_of_mem hmem
    have hrest2 : ChainSeg h t.next (x ++ a :: z) none := hxz ▸ hrest
    obtain ⟨m, _, hm2⟩ := (chainSeg_append h x (a :: z) t.next none).1 hrest2
    obtain ⟨_, t2, ht2, hz⟩ := hm2
    have htt : t = t2 := by rw [ht] at ht2; injection ht2
    subst htt
    have heq := chain_unique h l z t.next hrest hz
    have hlen := congrArg List.length heq
    rw [hxz] at hlen
    simp at hlen
    omega

theorem add_trigger_insert_chain (w : World) (l : List Nat) (n : Nat) (tn : psmx_trigger)
    (hc : Chain w.heap w.cntr.trigger l) (hlen : l.length ≤ w.brk + 1)
    (hs : l.Pairwise (fun a b => heap_threshold w.heap a ≤ heap_threshold w.heap b))
    (hn : w.heap n = .live tn) (hnl : n ∉ l) :
    ∃ h2 head l1 l2,
      add_trigger_insert w n =
        .ok { w with heap := h2, cntr := { w.cntr with trigger := head } } ∧
      l = l1 ++ l2 ∧
      (∀ a ∈ l1, heap_threshold w.heap a ≤ tn.threshold) ∧
      (∀ a ∈ l2, tn.threshold < heap_threshold w.heap a) ∧
      (∀ a, heap_threshold h2 a = heap_threshold w.heap a) ∧
      Chain h2 head (l1 ++ n :: l2) := by
  obtain ⟨l1, l2, q, p, hwalk, hl, h1, h2, hq, hseg, hc2⟩ :=
    add_trigger_walk_spec w.heap n tn hn l (w.brk + 1) none w.cntr.trigger hc hlen
  have hnd : (l1 ++ l2).Nodup := hl ▸ chain_nodup _ _ _ hc
  have hsorted : (l1 ++ l2).Pairwise
      (fun a b => heap_threshold w.heap a ≤ heap_threshold w.heap b) := hl ▸ hs
  have hn1 : n ∉ l1 := fun hm => hnl (hl ▸ List.mem_append_left _ hm)
  have hn2 : n ∉ l2 := fun hm => hnl (hl ▸ List.mem_append_right _ hm)
  have hall2 : ∀ a ∈ l2, tn.threshold < heap_threshold w.heap a := by
    cases l2 with
    | nil => intro a ha; simp at ha
    | cons b l2 =>
      intro a ha
      have hb := h2 b rfl
      rcases List.mem_cons.1 ha with rfl | ha
      · exact hb
      · have hp2 := (List.pairwise_append.1 hsorted).2.1
        have := (List.pairwise_cons.1 hp2).1 a ha
        omega
  rcases hq with ⟨rfl, rfl⟩ | ⟨l0, qa, rfl, rfl⟩
  · have hp : w.cntr.trigger = p := hseg
    refine ⟨Function.update w.heap n (.live { tn with next := p }), some n, [], l2, ?_, hl,
      h1, hall2, heap_threshold_set_next _ _ _ _ hn, ?_⟩
    · simp [add_trigger_insert, hwalk, store_next, load, hn]
    · exact chain_insert_head _ _ _ _ _ hc2 hn2
  · have hqa_mem : qa ∈ l0 ++ [qa] := by simp
    obtain ⟨tq, htq⟩ := chainSeg_live _ _ _ _ hseg qa hqa_mem
    have hqa_l : qa ∈ l := hl ▸ List.mem_append_left _ hqa_mem
    have hnq : n ≠ qa := fun e => hnl (e ▸ hqa_l)
    have hnd1 := List.nodup_append.1 hnd
    have hnd0 := List.nodup_append.1 hnd1.1
    have hq0 : qa ∉ l0 := fun hm => hnd0.2.2 hm (by simp)
    have hq2 : qa ∉ l2 := fun hm => hnd1.2.2 hqa_mem hm
    have hdis : ∀ a ∈ l0, a ∉ l2 := fun a ha hm =>
      hnd1.2.2 (List.mem_append_left _ ha) hm
    refine ⟨Function.update (Function.update w.heap qa (.live { tq with next := some n }))
        n (.live { tn with next := p }), w.cntr.trigger, l0 ++ [qa], l2, ?_, hl, h1, hall2,
      ?_, ?_⟩
    · simp [add_trigger_insert, hwalk, store_next, load, htq, hn,
        Function.update_noteq hnq]
    · intro a
      by_cases han : a = n
      · subst han
        simp [heap_threshold, hn]
      · rw [heap_threshold_update_ne _ _ _ _ han]
        exact heap_threshold_set_next _ _ _ _ htq a
    · have := chain_insert_after w.heap n qa tn tq p l2 htq hnq hc2 hn2 hq2 l0
        w.cntr.trigger hseg hq0 (fun hm => hn1 (List.mem_append_left _ hm)) hdis
      simpa using this

theorem alloc_then_insert (w : World) (l : List Nat) (op : psmx_triggered_op) (threshold : Nat)
    (hq : queue w = some l) (hun : ∀ a, w.brk ≤ a → w.heap a = .unallocated)
    (hsorted : l.Pairwise (fun a b => threshold_at w a ≤ threshold_at w b)) :
    ∃ w2 l1 l2,
      add_trigger_insert (alloc_trigger w op threshold).1 (alloc_trigger w op threshold).2 =
        .ok w2 ∧
      l = l1 ++ l2 ∧
      (∀ a ∈ l1, threshold_at w a ≤ threshold) ∧
      (∀ a ∈ l2, threshold < threshold_at w a) ∧
      Chain w2.heap w2.cntr.trigger (l1 ++ w.brk :: l2) ∧
      queue w2 = some (l1 ++ w.brk :: l2) ∧
      threshold_at w2 w.brk = threshold ∧
      (∀ a ∈ l, threshold_at w2 a = threshold_at w a) ∧
      w2.cntr.counter = w.cntr.counter ∧ w2.dispatched = w.dispatched ∧
      w2.brk = w.brk + 1 := by
  obtain ⟨hch, hlen⟩ := chain_of_trigger_list _ _ _ _ hq
  have hbl : w.brk ∉ l := by
    intro hm
    obtain ⟨t, ht⟩ := chainSeg_live _ _ _ _ hch _ hm
    rw [hun w.brk (Nat.le_refl _)] at ht
    simp at ht
  have hthr1 : ∀ a ∈ l, heap_threshold (alloc_trigger w op threshold).1.heap a =
      heap_threshold w.heap a := by
    intro a ha
    exact heap_threshold_update_ne _ _ _ _ (fun e => hbl (e ▸ ha))
  have hch1 : Chain (alloc_trigger w op threshold).1.heap
      (alloc_trigger w op threshold).1.cntr.trigger l :=
    chainSeg_update _ _ _ _ _ _ hch hbl
  have hs1 : l.Pairwise (fun a b =>
      heap_threshold (alloc_trigger w op threshold).1.heap a ≤
        heap_threshold (alloc_trigger w op threshold).1.heap b) := by
    refine List.Pairwise.imp_of_mem ?_ hsorted
    intro a b ha hb hab
    rw [hthr1 a ha, hthr1 b hb]
    exact hab
  have hlive : (alloc_trigger w op threshold).1.heap w.brk =
      .live { op := op, threshold := threshold, next := none } := by
    simp [alloc_trigger]
  obtain ⟨h2, head, l1, l2, hins, hl, hle, hgt, hthr, hch2⟩ :=
    add_trigger_insert_chain (alloc_trigger w op threshold).1 l w.brk _ hch1
      (by
        have : (alloc_trigger w op threshold).1.brk = w.brk + 1 := rfl
        omega)
      hs1 hlive hbl
  have hlen2 : (l1 ++ w.brk :: l2).length ≤ w.brk + 1 := by
    have : l.length = l1.length + l2.length := by rw [hl]; simp
    simp
    omega
  refine ⟨_, l1, l2, hins, hl, ?_, ?_, hch2, ?_, ?_, ?_, rfl, rfl, rfl⟩
  · intro a ha
    have := hle a ha
    rw [hthr1 a (hl ▸ List.mem_append_left _ ha)] at this
    exact this
  · intro a ha
    have := hgt a ha
    rw [hthr1 a (hl ▸ List.mem_append_right _ ha)] at this
    exact this
  · exact trigger_list_of_chain _ _ _ _ hch2 hlen2
  · show heap_threshold h2 w.brk = threshold
    rw [hthr]
    simp [heap_threshold, hlive]
  · intro a ha
    show heap_threshold h2 a = heap_threshold w.heap a
    rw [hthr, hthr1 a ha]

/-- C17: on any well-formed trigger list whose thresholds ascend, the insertion
step of add_trigger (before trigger evaluation) succeeds and splits the old
list into the triggers with threshold at most the new one and the triggers
with a larger threshold; the new list is the first part, the new trigger, the
second part, so the new trigger stands right after the last old trigger whose
threshold is at most its own (at the head if there is none), the old triggers
keep their order, thresholds and nothing else is added or removed; counter
value and dispatch log are untouched. -/
theorem C17_insertion_after_last_not_larger (w : World) (l : List Nat)
    (op : psmx_triggered_op) (threshold : Nat)
    (hq : queue w = some l) (hun : ∀ a, w.brk ≤ a → w.heap a = .unallocated)
    (hsorted : l.Pairwise (fun a b => threshold_at w a ≤ threshold_at w b)) :
    ∃ w2 l1 l2,
      add_trigger_insert (alloc_trigger w op threshold).1 (alloc_trigger w op threshold).2 =
        .ok w2 ∧
      l = l1 ++ l2 ∧
      (∀ a ∈ l1, threshold_at w a ≤ threshold) ∧
      (∀ a ∈ l2, threshold < threshold_at w a) ∧
      queue w2 = some (l1 ++ (alloc_trigger w op threshold).2 :: l2) ∧
      (alloc_trigger w op threshold).2 ∉ l ∧
      threshold_at w2 (alloc_trigger w op threshold).2 = threshold ∧
      (∀ a ∈ l, threshold_at w2 a = threshold_at w a) ∧
      w2.cntr.counter = w.cntr.counter ∧ w2.dispatched = w.dispatched := by
  obtain ⟨w2, l1, l2, hins, hl, hle, hgt, hch, hq2, ht, hthr, hc, hd, _⟩ :=
    alloc_then_insert w l op threshold hq hun hsorted
  refine ⟨w2, l1, l2, hins, hl, hle, hgt, hq2, ?_, ht, hthr, hc, hd⟩
  intro hm
  obtain ⟨hch0, _⟩ := chain_of_trigger_list _ _ _ _ hq
  obtain ⟨t, ht0⟩ := chainSeg_live _ _ _ _ hch0 _ hm
  have hb : (alloc_trigger w op threshold).2 = w.brk := rfl
  rw [hb, hun w.brk (Nat.le_refl _)] at ht0
  simp at ht0


theorem reachable_unalloc (attr : fi_cntr_attr) (w0 : World) (calls : List Call)
    (hopen : opened attr = some w0) :
    ∀ a, (final (run w0 calls)).brk ≤ a → (final (run w0 calls)).heap a = .unallocated := by
  obtain ⟨l, hw⟩ := final_wf _ (run_inv calls w0 (opened_inv attr w0 hopen))
  exact hw.unalloc

/-- Witness of C17: the list holds thresholds 3, 5, 8 (records 1, 0, 2); a new
trigger of threshold 5 (record 3) is placed after the old trigger of threshold
5 and before the one of threshold 8. -/
theorem C17_witness :
    queue (final (add_trigger_insert
        (alloc_trigger (final (run (fresh_world example_cntr)
          [.add_trigger .PSMX_TRIGGERED_SEND 5, .add_trigger .PSMX_TRIGGERED_SEND 3,
           .add_trigger .PSMX_TRIGGERED_SEND 8])) .PSMX_TRIGGERED_RECV 5).1
        (alloc_trigger (final (run (fresh_world example_cntr)
          [.add_trigger .PSMX_TRIGGERED_SEND 5, .add_trigger .PSMX_TRIGGERED_SEND 3,
           .add_trigger .PSMX_TRIGGERED_SEND 8])) .PSMX_TRIGGERED_RECV 5).2)) =
      some [1, 0, 3, 2] ∧
    ∃ w2 l1 l2,
      add_trigger_insert
        (alloc_trigger (final (run (fresh_world example_cntr)
          [.add_trigger .PSMX_TRIGGERED_SEND 5, .add_trigger .PSMX_TRIGGERED_SEND 3,
           .add_trigger .PSMX_TRIGGERED_SEND 8])) .PSMX_TRIGGERED_RECV 5).1
        (alloc_trigger (final (run (fresh_world example_cntr)
          [.add_trigger .PSMX_TRIGGERED_SEND 5, .add_trigger .PSMX_TRIGGERED_SEND 3,
           .add_trigger .PSMX_TRIGGERED_SEND 8])) .PSMX_TRIGGERED_RECV 5).2 = .ok w2 ∧
      [1, 0, 2] = l1 ++ l2 ∧
      (∀ a ∈ l1, threshold_at (final (run (fresh_world example_cntr)
          [.add_trigger .PSMX_TRIGGERED_SEND 5, .add_trigger .PSMX_TRIGGERED_SEND 3,
           .add_trigger .PSMX_TRIGGERED_SEND 8])) a ≤ 5) ∧
      (∀ a ∈ l2, 5 < threshold_at (final (run (fresh_world example_cntr)
          [.add_trigger .PSMX_TRIGGERED_SEND 5, .add_trigger .PSMX_TRIGGERED_SEND 3,
           .add_trigger .PSMX_TRIGGERED_SEND 8])) a) ∧
      queue w2 = some (l1 ++ (alloc_trigger (final (run (fresh_world example_cntr)
          [.add_trigger .PSMX_TRIGGERED_SEND 5, .add_trigger .PSMX_TRIGGERED_SEND 3,
           .add_trigger .PSMX_TRIGGERED_SEND 8])) .PSMX_TRIGGERED_RECV 5).2 :: l2) ∧
      (alloc_trigger (final (run (fresh_world example_cntr)
          [.add_trigger .PSMX_TRIGGERED_SEND 5, .add_trigger .PSMX_TRIGGERED_SEND 3,
           .add_trigger .PSMX_TRIGGERED_SEND 8])) .PSMX_TRIGGERED_RECV 5).2 ∉ [1, 0, 2] ∧
      threshold_at w2 (alloc_trigger (final (run (fresh_world example_cntr)
          [.add_trigger .PSMX_TRIGGERED_SEND 5, .add_trigger .PSMX_TRIGGERED_SEND 3,
           .add_trigger .PSMX_TRIGGERED_SEND 8])) .PSMX_TRIGGERED_RECV 5).2 = 5 ∧
      (∀ a ∈ [1, 0, 2], threshold_at w2 a = threshold_at (final (run (fresh_world example_cntr)
          [.add_trigger .PSMX_TRIGGERED_SEND 5, .add_trigger .PSMX_TRIGGERED_SEND 3,
           .add_trigger .PSMX_TRIGGERED_SEND 8])) a) ∧
      w2.cntr.counter = (final (run (fresh_world example_cntr)
          [.add_trigger .PSMX_TRIGGERED_SEND 5, .add_trigger .PSMX_TRIGGERED_SEND 3,
           .add_trigger .PSMX_TRIGGERED_SEND 8])).cntr.counter ∧
      w2.dispatched = (final (run (fresh_world example_cntr)
          [.add_trigger .PSMX_TRIGGERED_SEND 5, .add_trigger .PSMX_TRIGGERED_SEND 3,
           .add_trigger .PSMX_TRIGGERED_SEND 8])).dispatched := by
  have hq : queue (final (run (fresh_world example_cntr)
      [.add_trigger .PSMX_TRIGGERED_SEND 5, .add_trigger .PSMX_TRIGGERED_SEND 3,
       .add_trigger .PSMX_TRIGGERED_SEND 8])) = some [1, 0, 2] := by decide
  have hs : [1, 0, 2].Pairwise (fun a b =>
      threshold_at (final (run (fresh_world example_cntr)
        [.add_trigger .PSMX_TRIGGERED_SEND 5, .add_trigger .PSMX_TRIGGERED_SEND 3,
         .add_trigger .PSMX_TRIGGERED_SEND 8])) a ≤
      threshold_at (final (run (fresh_world example_cntr)
        [.add_trigger .PSMX_TRIGGERED_SEND 5, .add_trigger .PSMX_TRIGGERED_SEND 3,
         .add_trigger .PSMX_TRIGGERED_SEND 8])) b) := by decide
  refine ⟨by decide, C17_insertion_after_last_not_larger _ [1, 0, 2] .PSMX_TRIGGERED_RECV 5 hq
    (reachable_unalloc example_attr (fresh_world example_cntr) _ rfl) hs⟩

theorem check_trigger_eligible_chain (w : World) (a : Nat) (rest : List Nat)
    (hc : Chain w.heap w.cntr.trigger (a :: rest)) (hlen : rest.length ≤ w.brk)
    (hle : heap_threshold w.heap a ≤ w.cntr.counter) :
    ∃ e, psmx_cntr_check_trigger w = .error e ∧ e.1 = .use_after_free a ∧
      e.2.dispatched.map (fun d => d.trigger) = w.dispatched.map (fun d => d.trigger) ++ [a] ∧
      queue e.2 = some rest ∧ e.2.heap a = .freed ∧ e.2.cntr.counter = w.cntr.counter := by
  have hal : a ∉ rest := (List.nodup_cons.1 (chain_nodup _ _ _ hc)).1
  obtain ⟨hp, t, ht, hrest⟩ := hc
  have hthr : heap_threshold w.heap a = t.threshold := by simp [heap_threshold, ht]
  have hcn : ¬ w.cntr.counter < t.threshold := by omega
  have heq : psmx_cntr_check_trigger w = .error (.use_after_free a,
      free { w with cntr := { w.cntr with trigger := t.next },
                    dispatched := w.dispatched ++
                      [(⟨a, t.op, callee_of t.op, t.threshold, w.cntr.counter⟩ : Dispatch)] } a) := by
    simp only [psmx_cntr_check_trigger, hp, check_trigger_loop_two, ht, hcn, if_false]
  refine ⟨_, heq, rfl, ?_, ?_, ?_, rfl⟩
  · simp [free]
  · exact trigger_list_of_chain _ _ _ _ (chainSeg_update _ _ _ _ _ _ hrest hal) hlen
  · simp [free]

theorem check_trigger_not_eligible_chain (w : World) (a : Nat) (rest : List Nat)
    (hc : Chain w.heap w.cntr.trigger (a :: rest))
    (hgt : w.cntr.counter < heap_threshold w.heap a) :
    psmx_cntr_check_trigger w = .ok w := by
  obtain ⟨hp, t, ht, _⟩ := hc
  have hthr : heap_threshold w.heap a = t.threshold := by simp [heap_threshold, ht]
  have hcn : w.cntr.counter < t.threshold := by omega
  simp only [psmx_cntr_check_trigger, hp, check_trigger_loop_two, ht, hcn, if_true]

theorem add_trigger_eligible (attr : fi_cntr_attr) (w0 w : World) (calls : List Call)
    (op : psmx_triggered_op) (threshold : Nat) (l : List Nat)
    (hopen : opened attr = some w0) (hrun : run w0 calls = .ok w) (hq : queue w = some l)
    (hle : threshold ≤ psmx_cntr_read w) :
    fault_of (step w (.add_trigger op threshold)) = some (.use_after_free w.brk) ∧
    (final (step w (.add_trigger op threshold))).dispatched.map (fun d => d.trigger) = [w.brk] ∧
    queue (final (step w (.add_trigger op threshold))) = some l ∧
    psmx_cntr_read (final (step w (.add_trigger op threshold))) = psmx_cntr_read w := by
  have hinv := run_inv calls w0 (opened_inv attr w0 hopen)
  rw [hrun] at hinv
  obtain ⟨hd, l0, hw, habove, _⟩ := hinv
  have hl0 : l0 = l := by
    have := hw.queue_eq
    rw [hq] at this
    injection this with h1
    exact h1.symm
  subst hl0
  have hsorted : l0.Pairwise (fun a b => threshold_at w a ≤ threshold_at w b) :=
    List.Pairwise.imp (fun hab => queueOrder_le _ _ _ hab) hw.sorted
  obtain ⟨w2, l1, l2, hins, hl, hle1, _, hch, _, ht, _, hc, hd2, hb⟩ :=
    alloc_then_insert w l0 op threshold hq hw.unalloc hsorted
  have hl1 : l1 = [] := by
    cases l1 with
    | nil => rfl
    | cons a l1 =>
      have h1 := hle1 a (by simp)
      have h2 := habove a (hl ▸ List.mem_append_left _ (List.mem_cons_self a l1))
      have h3 : threshold ≤ w.cntr.counter := hle
      have h4 : threshold_at w a = heap_threshold w.heap a := rfl
      omega
  subst hl1
  have hl2 : l2 = l0 := by simpa using hl.symm
  subst hl2
  obtain ⟨e, he, hf, hdis, hq2, _, hcnt⟩ := check_trigger_eligible_chain w2 w.brk l2 hch
    (by rw [hb]; exact Nat.le_succ_of_le hw.length_le)
    (by
      have h5 : heap_threshold w2.heap w.brk = threshold := ht
      have h3 : threshold ≤ w.cntr.counter := hle
      omega)
  have hstep : step w (.add_trigger op threshold) = .error e := by
    simp only [step, psmx_cntr_add_trigger, hins]
    exact he
  rw [hstep]
  refine ⟨by simp [fault_of, hf], ?_, hq2, ?_⟩
  · show e.2.dispatched.map (fun d => d.trigger) = [w.brk]
    rw [hdis, hd2, hd]
    rfl
  · show e.2.cntr.counter = w.cntr.counter
    rw [hcnt, hc]

theorem add_trigger_not_eligible (attr : fi_cntr_attr) (w0 w : World) (calls : List Call)
    (op : psmx_triggered_op) (threshold : Nat) (l : List Nat)
    (hopen : opened attr = some w0) (hrun : run w0 calls = .ok w) (hq : queue w = some l)
    (hgt : psmx_cntr_read w < threshold) :
    ∃ w2 l1 l2, step w (.add_trigger op threshold) = .ok w2 ∧ w2.dispatched = [] ∧
      l = l1 ++ l2 ∧ (∀ a ∈ l1, threshold_at w a ≤ threshold) ∧
      (∀ a ∈ l2, threshold < threshold_at w a) ∧
      queue w2 = some (l1 ++ w.brk :: l2) ∧ psmx_cntr_read w2 = psmx_cntr_read w := by
  have hinv := run_inv calls w0 (opened_inv attr w0 hopen)
  rw [hrun] at hinv
  obtain ⟨hd, l0, hw, habove, _⟩ := hinv
  have hl0 : l0 = l := by
    have := hw.queue_eq
    rw [hq] at this
    injection this with h1
    exact h1.symm
  subst hl0
  have hsorted : l0.Pairwise (fun a b => threshold_at w a ≤ threshold_at w b) :=
    List.Pairwise.imp (fun hab => queueOrder_le _ _ _ hab) hw.sorted
  obtain ⟨w2, l1, l2, hins, hl, hle1, hgt2, hch, hq2, ht, hthr, hc, hd2, hb⟩ :=
    alloc_then_insert w l0 op threshold hq hw.unalloc hsorted
  have hcheck : psmx_cntr_check_trigger w2 = .ok w2 := by
    cases l1 with
    | nil =>
      refine check_trigger_not_eligible_chain w2 w.brk l2 hch ?_
      have h5 : heap_threshold w2.heap w.brk = threshold := ht
      have h3 : w.cntr.counter < threshold := hgt
      omega
    | cons a l1 =>
      refine check_trigger_not_eligible_chain w2 a (l1 ++ w.brk :: l2) hch ?_
      have hal : a ∈ l0 := hl ▸ List.mem_append_left _ (List.mem_cons_self a l1)
      have h1 := habove a hal
      have h2 : heap_threshold w2.heap a = heap_threshold w.heap a := hthr a hal
      omega
  refine ⟨w2, l1, l2, ?_, by rw [hd2, hd], hl, hle1, hgt2, hq2, hc⟩
  simp only [step, psmx_cntr_add_trigger, hins]
  exact hcheck

/-- C18: evaluation at the failing input.  On a fresh counter (value 0),
add_trigger of a trigger with threshold 0 dispatches the trigger, frees it and
then tests the freed record again.  In general, in every state a completed run
from open has reached: an add_trigger whose threshold is at most the counter
value dispatches the new trigger alone, leaves queue and counter value as they
were, and stops at the use of the freed trigger instead of returning; an
add_trigger whose threshold is above the counter value returns, dispatches
nothing, leaves the counter value alone and inserts the trigger. -/
theorem C18_add_trigger_at_or_below_value_faults :
    (opened example_attr = some (fresh_world example_cntr) ∧
    fault_of (run (fresh_world example_cntr) [.add_trigger .PSMX_TRIGGERED_SEND 0]) =
      some (.use_after_free 0) ∧
    (final (run (fresh_world example_cntr)
      [.add_trigger .PSMX_TRIGGERED_SEND 0])).dispatched.map (fun d => d.trigger) = [0] ∧
    queue (final (run (fresh_world example_cntr) [.add_trigger .PSMX_TRIGGERED_SEND 0])) =
      some [] ∧
    (final (run (fresh_world example_cntr) [.add_trigger .PSMX_TRIGGERED_SEND 0])).heap 0 =
      .freed) ∧
    (∀ (attr : fi_cntr_attr) (w0 w : World) (calls : List Call) (op : psmx_triggered_op)
      (threshold : Nat) (l : List Nat),
      opened attr = some w0 → run w0 calls = .ok w → queue w = some l →
      threshold ≤ psmx_cntr_read w →
      fault_of (step w (.add_trigger op threshold)) = some (.use_after_free w.brk) ∧
      (final (step w (.add_trigger op threshold))).dispatched.map (fun d => d.trigger) =
        [w.brk] ∧
      queue (final (step w (.add_trigger op threshold))) = some l ∧
      psmx_cntr_read (final (step w (.add_trigger op threshold))) = psmx_cntr_read w) ∧
    (∀ (attr : fi_cntr_attr) (w0 w : World) (calls : List Call) (op : psmx_triggered_op)
      (threshold : Nat) (l : List Nat),
      opened attr = some w0 → run w0 calls = .ok w → queue w = some l →
      psmx_cntr_read w < threshold →
      ∃ w2 l1 l2, step w (.add_trigger op threshold) = .ok w2 ∧ w2.dispatched = [] ∧
        l = l1 ++ l2 ∧ (∀ a ∈ l1, threshold_at w a ≤ threshold) ∧
        (∀ a ∈ l2, threshold < threshold_at w a) ∧
        queue w2 = some (l1 ++ w.brk :: l2) ∧ psmx_cntr_read w2 = psmx_cntr_read w) := by
  refine ⟨⟨rfl, ?_, ?_, ?_, ?_⟩, ?_, ?_⟩
  · decide
  · decide
  · decide
  · decide
  · intro attr w0 w calls op threshold l hopen hrun hq hle
    exact add_trigger_eligible attr w0 w calls op threshold l hopen hrun hq hle
  · intro attr w0 w calls op threshold l hopen hrun hq hgt
    exact add_trigger_not_eligible attr w0 w calls op threshold l hopen hrun hq hgt

end Psmx

namespace Smr

theorem cstr_of_is_cstring (s : List Char) (h : is_cstring s = true) : cstr s = s := by
  unfold cstr
  rw [List.takeWhile_eq_self_iff]
  intro x hx
  simp only [is_cstring, List.all_eq_true] at h
  exact h x hx

theorem digitChar_mod_ne_nul (n : Nat) : Nat.digitChar (n % 10) ≠ NUL := by
  have h : n % 10 < 10 := Nat.mod_lt _ (by decide)
  generalize n % 10 = d at h
  interval_cases d <;> decide

theorem toDigitsCore_no_nul :
    ∀ (fuel n : Nat) (acc : List Char), (∀ c ∈ acc, c ≠ NUL) →
      ∀ c ∈ Nat.toDigitsCore 10 fuel n acc, c ≠ NUL := by
  intro fuel
  induction fuel with
  | zero => intro n acc hacc c hc; simp [Nat.toDigitsCore] at hc; exact hacc c hc
  | succ fuel ih =>
    intro n acc hacc c hc
    simp only [Nat.toDigitsCore] at hc
    split_ifs at hc
    · rcases List.mem_cons.1 hc with rfl | hc
      · exact digitChar_mod_ne_nul _
      · exact hacc c hc
    · refine ih _ _ ?_ c hc
      intro c1 hc1
      rcases List.mem_cons.1 hc1 with rfl | hc1
      · exact digitChar_mod_ne_nul _
      · exact hacc c1 hc1

theorem fmt_d_eq (pid : Int) : fmt_d pid = (toString pid).toList := by
  cases pid with
  | ofNat m =>
    unfold fmt_d
    rw [if_neg (by simp)]
    rfl
  | negSucc m =>
    unfold fmt_d
    rw [if_pos (Int.negSucc_lt_zero m)]
    rfl

theorem is_cstring_fmt_d (pid : Int) : is_cstring (fmt_d pid) = true := by
  simp only [is_cstring, List.all_eq_true, decide_eq_true_eq]
  intro c hc
  unfold fmt_d at hc
  split_ifs at hc
  · rcases List.mem_cons.1 hc with rfl | hc
    · decide
    · exact toDigitsCore_no_nul _ _ [] (by simp) c hc
  · exact toDigitsCore_no_nul _ _ [] (by simp) c hc

theorem is_cstring_append (a b : List Char) (ha : is_cstring a = true) (hb : is_cstring b = true) :
    is_cstring (a ++ b) = true := by
  simp only [is_cstring, List.all_append, Bool.and_eq_true] at *
  exact ⟨ha, hb⟩

theorem is_cstring_take (n : Nat) (a : List Char) (ha : is_cstring a = true) :
    is_cstring (a.take n) = true := by
  simp only [is_cstring, List.all_eq_true] at *
  intro x hx
  exact ha x (List.mem_of_mem_take hx)

theorem is_cstring_spec_address (K : smr_consts) (pid : Int) (node service : Option (List Char))
    (hp : is_cstring K.SMR_PREFIX = true) (hpn : is_cstring K.SMR_PREFIX_NS = true)
    (hn : is_cstring_opt node = true) (hs : is_cstring_opt service = true) :
    is_cstring (spec_address K pid node service) = true := by
  cases node <;> cases service <;> simp only [spec_address, is_cstring_opt] at *
  · rw [← fmt_d_eq]; exact is_cstring_append _ _ hp (is_cstring_fmt_d _)
  · exact is_cstring_append _ _ hpn hs
  · exact is_cstring_append _ _ hp hn
  · exact is_cstring_append _ _ (is_cstring_append _ _ (is_cstring_append _ _ hpn hn) (by decide)) hs

theorem cstr_append_nul (y : List Char) (hy : is_cstring y = true) : cstr (y ++ [NUL]) = y := by
  unfold cstr
  rw [List.takeWhile_append_of_pos]
  · simp [List.takeWhile]
  · intro a ha
    simp only [is_cstring, List.all_eq_true] at hy
    exact hy a ha

theorem resolve_of_temp (x : List Char) (hx : is_cstring x = true) :
    ((cstr (snprintf (NAME_MAX - 1) x) ++ [NUL]).set
        ((cstr (cstr (snprintf (NAME_MAX - 1) x) ++ [NUL])).length + 1 - 1) NUL,
      (cstr (cstr (snprintf (NAME_MAX - 1) x) ++ [NUL])).length + 1) =
    (x.take (NAME_MAX - 2) ++ [NUL], (x.take (NAME_MAX - 2)).length + 1) := by
  have hy := is_cstring_take (NAME_MAX - 2) x hx
  have h1 : cstr (snprintf (NAME_MAX - 1) x) = x.take (NAME_MAX - 2) := by
    unfold snprintf
    exact cstr_append_nul _ hy
  rw [h1, cstr_append_nul _ hy]
  simp

theorem smr_resolve_addr_eq (K : smr_consts) (pid : Int) (node service : Option (List Char))
    (hp : is_cstring K.SMR_PREFIX = true) (hpn : is_cstring K.SMR_PREFIX_NS = true)
    (hn : is_cstring_opt node = true) (hs : is_cstring_opt service = true) :
    smr_resolve_addr K pid node service =
      ((spec_address K pid node service).take (NAME_MAX - 2) ++ [NUL],
       ((spec_address K pid node service).take (NAME_MAX - 2)).length + 1) := by
  have hx := is_cstring_spec_address K pid node service hp hpn hn hs
  have key := resolve_of_temp _ hx
  cases node with
  | none =>
    cases service with
    | none =>
      simp only [smr_resolve_addr, cstr_of_is_cstring _ hp, fmt_d_eq pid]
      exact key
    | some s =>
      simp only [is_cstring_opt] at hs
      simp only [smr_resolve_addr, cstr_of_is_cstring _ hpn, cstr_of_is_cstring _ hs]
      exact key
  | some n =>
    simp only [is_cstring_opt] at hn
    cases service with
    | none =>
      simp only [smr_resolve_addr, cstr_of_is_cstring _ hp, cstr_of_is_cstring _ hn]
      exact key
    | some s =>
      simp only [is_cstring_opt] at hs
      simp only [smr_resolve_addr, cstr_of_is_cstring _ hpn, cstr_of_is_cstring _ hn,
        cstr_of_is_cstring _ hs]
      exact key


theorem smr_getinfo_cur_cma (K : smr_consts) (pid : Int) (node service : Option (List Char))
    (flags : Nat) (fast_rma c1 c2 : Int) (cur : fi_info) (h1 : c1 ≠ 0) (h2 : c2 ≠ 0) :
    smr_getinfo_cur K pid node service flags fast_rma c1 cur =
      smr_getinfo_cur K pid node service flags fast_rma c2 cur := by
  simp [smr_getinfo_cur, h1, h2]

/-- C11 (amended): for node and service given as C strings (each possibly absent),
smr_resolve_addr returns the string of the naming scheme (namespace prefix,
node, colon, service; namespace prefix, service; prefix, node; prefix, decimal
process id) cut to its first NAME_MAX - 2 characters and followed by the null
terminator, and the returned length is the length of that string plus 1; when
the string of the naming scheme has at most NAME_MAX - 2 characters the result
is that string itself. -/
theorem C11_address_synthesis_up_to_name_max (K : smr_consts) (pid : Int)
    (node service : Option (List Char))
    (hp : is_cstring K.SMR_PREFIX = true) (hpn : is_cstring K.SMR_PREFIX_NS = true)
    (hn : is_cstring_opt node = true) (hs : is_cstring_opt service = true) :
    smr_resolve_addr K pid node service =
      ((spec_address K pid node service).take (NAME_MAX - 2) ++ [NUL],
       ((spec_address K pid node service).take (NAME_MAX - 2)).length + 1) ∧
    ((spec_address K pid node service).length ≤ NAME_MAX - 2 →
      smr_resolve_addr K pid node service =
        (spec_address K pid node service ++ [NUL],
         (spec_address K pid node service).length + 1)) := by
  have h := smr_resolve_addr_eq K pid node service hp hpn hn hs
  refine ⟨h, ?_⟩
  intro hlen
  rw [h, List.take_of_length_le hlen]

/-- Witness of C11 (amended): node "h1" and service "9999" give the namespace
prefix followed by "h1:9999" and the terminator, with length 16. -/
theorem C11_witness :
    smr_resolve_addr example_consts 4242 (some "h1".toList) (some "9999".toList) =
      ("fi_ns://h1:9999".toList ++ [NUL], 16) ∧
    (smr_resolve_addr example_consts 4242 (some "h1".toList) (some "9999".toList) =
      ((spec_address example_consts 4242 (some "h1".toList) (some "9999".toList)).take
          (NAME_MAX - 2) ++ [NUL],
       ((spec_address example_consts 4242 (some "h1".toList) (some "9999".toList)).take
          (NAME_MAX - 2)).length + 1) ∧
    ((spec_address example_consts 4242 (some "h1".toList) (some "9999".toList)).length ≤
        NAME_MAX - 2 →
      smr_resolve_addr example_consts 4242 (some "h1".toList) (some "9999".toList) =
        (spec_address example_consts 4242 (some "h1".toList) (some "9999".toList) ++ [NUL],
         (spec_address example_consts 4242 (some "h1".toList) (some "9999".toList)).length
          + 1))) :=
  ⟨by decide, C11_address_synthesis_up_to_name_max example_consts 4242 (some "h1".toList)
    (some "9999".toList) (by decide) (by decide) (by decide) (by decide)⟩

theorem long_node_is_cstring : is_cstring_opt (some long_node) = true := by
  simp only [is_cstring_opt, is_cstring, List.all_eq_true, decide_eq_true_eq, long_node]
  intro c hc
  rw [List.eq_of_mem_replicate hc]
  decide

theorem long_node_address_length :
    (spec_address example_consts 4242 (some long_node) none).length = 309 := by
  simp only [spec_address, example_consts, List.length_append, long_node,
    List.length_replicate]
  rfl

theorem long_node_resolved :
    smr_resolve_addr example_consts 4242 (some long_node) none =
      ((spec_address example_consts 4242 (some long_node) none).take (NAME_MAX - 2) ++ [NUL],
        254) := by
  rw [smr_resolve_addr_eq example_consts 4242 (some long_node) none
    (by decide) (by decide) long_node_is_cstring (by decide)]
  rw [List.length_take, long_node_address_length]
  rfl

/-- C11 as stated fails: for a node of 300 characters and no service the scheme
gives a string of 309 characters, but the returned length is 254 and the
returned buffer is not that string with its terminator. -/
theorem C11_counterexample :
    is_cstring_opt (some long_node) = true ∧
    (spec_address example_consts 4242 (some long_node) none).length = 309 ∧
    (smr_resolve_addr example_consts 4242 (some long_node) none).2 = 254 ∧
    smr_resolve_addr example_consts 4242 (some long_node) none ≠
      (spec_address example_consts 4242 (some long_node) none ++ [NUL],
       (spec_address example_consts 4242 (some long_node) none).length + 1) := by
  refine ⟨long_node_is_cstring, long_node_address_length, ?_, ?_⟩
  · rw [long_node_resolved]
  · rw [long_node_resolved, long_node_address_length]
    intro heq
    have h2 := congrArg Prod.snd heq
    simp at h2

/-- C19: for node and service given as C strings of any length, the address
synthesized by smr_resolve_addr has a reported length (terminator included)
of at least 1 and at most NAME_MAX - 1, the buffer has that length, its byte
at index length - 1 is the null terminator, no earlier byte is null, and the
bytes before the terminator are a prefix of the string the naming scheme
gives. -/
theorem C19_address_is_bounded (K : smr_consts) (pid : Int)
    (node service : Option (List Char))
    (hp : is_cstring K.SMR_PREFIX = true) (hpn : is_cstring K.SMR_PREFIX_NS = true)
    (hn : is_cstring_opt node = true) (hs : is_cstring_opt service = true) :
    1 ≤ (smr_resolve_addr K pid node service).2 ∧
    (smr_resolve_addr K pid node service).2 ≤ NAME_MAX - 1 ∧
    (smr_resolve_addr K pid node service).1.length = (smr_resolve_addr K pid node service).2 ∧
    (smr_resolve_addr K pid node service).1.get?
      ((smr_resolve_addr K pid node service).2 - 1) = some NUL ∧
    is_cstring ((smr_resolve_addr K pid node service).1.take
      ((smr_resolve_addr K pid node service).2 - 1)) = true ∧
    List.IsPrefix ((smr_resolve_addr K pid node service).1.take
      ((smr_resolve_addr K pid node service).2 - 1)) (spec_address K pid node service) := by
  have h := smr_resolve_addr_eq K pid node service hp hpn hn hs
  have hx := is_cstring_spec_address K pid node service hp hpn hn hs
  have hle : ((spec_address K pid node service).take (NAME_MAX - 2)).length ≤ NAME_MAX - 2 :=
    List.length_take_le _ _
  rw [h]
  refine ⟨by simp, ?_, by simp, ?_, ?_, ?_⟩
  · show _ + 1 ≤ NAME_MAX - 1
    unfold NAME_MAX at hle ⊢
    omega
  · simp [List.getElem?_append_right]
  · simpa using is_cstring_take _ _ hx
  · simpa using List.take_prefix _ _

/-- Witness of C19: a node of 300 characters, for which the result is cut to the
bound: the reported length is NAME_MAX - 1 = 254. -/
theorem C19_witness :
    (smr_resolve_addr example_consts 4242 (some long_node) none).2 = 254 ∧
    (1 ≤ (smr_resolve_addr example_consts 4242 (some long_node) none).2 ∧
    (smr_resolve_addr example_consts 4242 (some long_node) none).2 ≤ NAME_MAX - 1 ∧
    (smr_resolve_addr example_consts 4242 (some long_node) none).1.length =
      (smr_resolve_addr example_consts 4242 (some long_node) none).2 ∧
    (smr_resolve_addr example_consts 4242 (some long_node) none).1.get?
      ((smr_resolve_addr example_consts 4242 (some long_node) none).2 - 1) = some NUL ∧
    is_cstring ((smr_resolve_addr example_consts 4242 (some long_node) none).1.take
      ((smr_resolve_addr example_consts 4242 (some long_node) none).2 - 1)) = true ∧
    List.IsPrefix ((smr_resolve_addr example_consts 4242 (some long_node) none).1.take
      ((smr_resolve_addr example_consts 4242 (some long_node) none).2 - 1))
      (spec_address example_consts 4242 (some long_node) none)) :=
  ⟨by rw [long_node_resolved],
   C19_address_is_bounded example_consts 4242 (some long_node) none
    (by decide) (by decide) long_node_is_cstring (by decide)⟩


/-- C12: when the fast-RMA predicate holds for the memory-region mode and message
order taken from the hints, the discovery collaborator succeeded and the
capability probe returns, smr_getinfo returns 0 and as many descriptors as the
collaborator produced, and on every one of them the three RMA order sizes are
0, the memory-region mode is FI_MR_VIRT_ADDR and the message order is
FI_ORDER_SAS. -/
theorem C12_fast_rma_forces_attributes (K : smr_consts) (fre : Nat → Nat → Int)
    (util : Int × List fi_info) (probe : ProbeEnv) (pid : Int)
    (node service : Option (List Char)) (flags : Nat) (hints : Option fi_hints)
    (hutil : util.1 = 0)
    (hfast : fre (hints_mr_mode K hints) (hints_msg_order hints) ≠ 0)
    (hprobe : smr_check_cma_capability probe ≠ none) :
    ∃ r, smr_getinfo K fre util probe pid node service flags hints = some r ∧
      r.1 = 0 ∧ r.2.length = util.2.length ∧
      ∀ d ∈ r.2,
        d.max_order_raw_size = 0 ∧ d.max_order_waw_size = 0 ∧ d.max_order_war_size = 0 ∧
        d.mr_mode = K.FI_MR_VIRT_ADDR ∧ d.msg_order = K.FI_ORDER_SAS := by
  obtain ⟨c, hc⟩ := Option.ne_none_iff_exists'.1 hprobe
  refine ⟨_, smr_getinfo_returns K fre util probe pid node service flags hints c hutil hc,
    rfl, by simp, ?_⟩
  intro d hd
  simp only [List.mem_map] at hd
  obtain ⟨cur, _, rfl⟩ := hd
  simp only [smr_getinfo_cur, hfast, ne_eq, not_false_eq_true, if_true]
  split_ifs <;> simp

/-- Witness of C12: two descriptors with order sizes 5, 6, 7 and 100, 200, 300
come back with all of them 0, whatever the probe said. -/
theorem C12_witness :
    (smr_getinfo example_consts (fun _ _ => 1) (0, [example_info, example_info_addressed])
        probe_success 4242 (some "h1".toList) none 0 none).map
      (fun r => r.2.map (fun d => (d.max_order_raw_size, d.max_order_waw_size,
        d.max_order_war_size, d.mr_mode, d.msg_order))) =
      some [(0, 0, 0, 16, 256), (0, 0, 0, 16, 256)] ∧
    ∃ r, smr_getinfo example_consts (fun _ _ => 1) (0, [example_info, example_info_addressed])
        probe_success 4242 (some "h1".toList) none 0 none = some r ∧
      r.1 = 0 ∧ r.2.length = (0, [example_info, example_info_addressed]).2.length ∧
      ∀ d ∈ r.2,
        d.max_order_raw_size = 0 ∧ d.max_order_waw_size = 0 ∧ d.max_order_war_size = 0 ∧
        d.mr_mode = example_consts.FI_MR_VIRT_ADDR ∧
        d.msg_order = example_consts.FI_ORDER_SAS :=
  ⟨by decide, C12_fast_rma_forces_attributes example_consts (fun _ _ => 1)
    (0, [example_info, example_info_addressed]) probe_success 4242 (some "h1".toList) none 0
    none rfl (by decide) (by decide)⟩

theorem smr_getinfo_cur_no_fast_rma (K : smr_consts) (pid : Int)
    (node service : Option (List Char)) (flags : Nat) (cma_cap : Int) (cur : fi_info) :
    (smr_getinfo_cur K pid node service flags 0 cma_cap cur).mr_mode = cur.mr_mode ∧
    (smr_getinfo_cur K pid node service flags 0 cma_cap cur).msg_order = cur.msg_order ∧
    (smr_getinfo_cur K pid node service flags 0 cma_cap cur).max_order_raw_size =
      cur.max_order_raw_size ∧
    (smr_getinfo_cur K pid node service flags 0 cma_cap cur).max_order_waw_size =
      cur.max_order_waw_size ∧
    (smr_getinfo_cur K pid node service flags 0 cma_cap cur).max_order_war_size =
      cur.max_order_war_size := by
  simp only [smr_getinfo_cur, ne_eq, not_true_eq_false, if_false]
  split_ifs <;> simp

/-- C13: when the discovery collaborator succeeded and the capability probe
returns, smr_getinfo returns 0 with the descriptors of the collaborator in the
collaborator's order, and for each of them: the destination address is the
one synthesized from (node, service) when FI_SOURCE was not requested and the
descriptor had none, and is left as it was otherwise; the source address is
left as it was when the descriptor had one, and otherwise is the one
synthesized from (node, service) when FI_SOURCE was requested and from
(none, none) when it was not; the memory-region mode, the message order and
the order sizes are left as they were when fast RMA is not enabled, and
max_msg_size is left as it was when the probe returned 0. -/
theorem C13_address_fill_in (K : smr_consts) (fre : Nat → Nat → Int)
    (util : Int × List fi_info) (probe : ProbeEnv) (pid : Int)
    (node service : Option (List Char)) (flags : Nat) (hints : Option fi_hints)
    (hutil : util.1 = 0) (hprobe : smr_check_cma_capability probe ≠ none) :
    ∃ r, smr_getinfo K fre util probe pid node service flags hints = some r ∧ r.1 = 0 ∧
    List.Forall₂ (fun cur d =>
      ((Nat.land flags K.FI_SOURCE = 0 ∧ cur.dest_addr = none) →
        d.dest_addr = some (smr_resolve_addr K pid node service).1 ∧
        d.dest_addrlen = (smr_resolve_addr K pid node service).2) ∧
      (¬ (Nat.land flags K.FI_SOURCE = 0 ∧ cur.dest_addr = none) →
        d.dest_addr = cur.dest_addr ∧ d.dest_addrlen = cur.dest_addrlen) ∧
      (cur.src_addr = none → Nat.land flags K.FI_SOURCE ≠ 0 →
        d.src_addr = some (smr_resolve_addr K pid node service).1 ∧
        d.src_addrlen = (smr_resolve_addr K pid node service).2) ∧
      (cur.src_addr = none → Nat.land flags K.FI_SOURCE = 0 →
        d.src_addr = some (smr_resolve_addr K pid none none).1 ∧
        d.src_addrlen = (smr_resolve_addr K pid none none).2) ∧
      (cur.src_addr ≠ none →
        d.src_addr = cur.src_addr ∧ d.src_addrlen = cur.src_addrlen) ∧
      (fre (hints_mr_mode K hints) (hints_msg_order hints) = 0 →
        d.mr_mode = cur.mr_mode ∧ d.msg_order = cur.msg_order ∧
        d.max_order_raw_size = cur.max_order_raw_size ∧
        d.max_order_waw_size = cur.max_order_waw_size ∧
        d.max_order_war_size = cur.max_order_war_size) ∧
      (smr_check_cma_capability probe = some 0 → d.max_msg_size = cur.max_msg_size))
      util.2 r.2 := by
  obtain ⟨c, hc⟩ := Option.ne_none_iff_exists'.1 hprobe
  refine ⟨_, smr_getinfo_returns K fre util probe pid node service flags hints c hutil hc,
    rfl, ?_⟩
  show List.Forall₂ _ util.2 (util.2.map _)
  rw [List.forall₂_map_right_iff]
  apply List.forall₂_same.2
  intro cur _
  refine ⟨?_, ?_, ?_, ?_, ?_, ?_, ?_⟩
  · intro h
    simp only [smr_getinfo_cur]
    split_ifs <;> simp_all
  · intro h
    simp only [smr_getinfo_cur]
    split_ifs <;> simp_all
  · intro h1 h2
    simp only [smr_getinfo_cur]
    split_ifs <;> simp_all
  · intro h1 h2
    simp only [smr_getinfo_cur]
    split_ifs <;> simp_all
  · intro h1
    simp only [smr_getinfo_cur]
    split_ifs <;> simp_all
  · intro h1
    rw [h1]
    exact smr_getinfo_cur_no_fast_rma K pid node service flags c cur
  · intro h0
    have hc0 : c = 0 := by rw [hc] at h0; injection h0
    rw [smr_getinfo_cur_max_msg_size]
    simp [hc0]

/-- Witness of C13: without FI_SOURCE, a descriptor without addresses gets the
destination of node "h1" and the process-id source, and a descriptor with
addresses keeps them; the order is kept. -/
theorem C13_witness :
    (smr_getinfo example_consts (fun _ _ => 0) (0, [example_info, example_info_addressed])
        probe_success 77 (some "h1".toList) none 0 none).map
      (fun r => r.2.map (fun d => (d.dest_addr, d.src_addr))) =
      some [(some ("fi_shm://h1".toList ++ [NUL]), some ("fi_shm://77".toList ++ [NUL])),
       (some "dst".toList, some "src".toList)] ∧
    ∃ r, smr_getinfo example_consts (fun _ _ => 0) (0, [example_info, example_info_addressed])
        probe_success 77 (some "h1".toList) none 0 none = some r ∧ r.1 = 0 ∧
    List.Forall₂ (fun cur d =>
      ((Nat.land 0 example_consts.FI_SOURCE = 0 ∧ cur.dest_addr = none) →
        d.dest_addr = some (smr_resolve_addr example_consts 77 (some "h1".toList) none).1 ∧
        d.dest_addrlen = (smr_resolve_addr example_consts 77 (some "h1".toList) none).2) ∧
      (¬ (Nat.land 0 example_consts.FI_SOURCE = 0 ∧ cur.dest_addr = none) →
        d.dest_addr = cur.dest_addr ∧ d.dest_addrlen = cur.dest_addrlen) ∧
      (cur.src_addr = none → Nat.land 0 example_consts.FI_SOURCE ≠ 0 →
        d.src_addr = some (smr_resolve_addr example_consts 77 (some "h1".toList) none).1 ∧
        d.src_addrlen = (smr_resolve_addr example_consts 77 (some "h1".toList) none).2) ∧
      (cur.src_addr = none → Nat.land 0 example_consts.FI_SOURCE = 0 →
        d.src_addr = some (smr_resolve_addr example_consts 77 none none).1 ∧
        d.src_addrlen = (smr_resolve_addr example_consts 77 none none).2) ∧
      (cur.src_addr ≠ none →
        d.src_addr = cur.src_addr ∧ d.src_addrlen = cur.src_addrlen) ∧
      ((fun _ _ => (0 : Int)) (hints_mr_mode example_consts none) (hints_msg_order none) = 0 →
        d.mr_mode = cur.mr_mode ∧ d.msg_order = cur.msg_order ∧
        d.max_order_raw_size = cur.max_order_raw_size ∧
        d.max_order_waw_size = cur.max_order_waw_size ∧
        d.max_order_war_size = cur.max_order_war_size) ∧
      (smr_check_cma_capability probe_success = some 0 → d.max_msg_size = cur.max_msg_size))
      (0, [example_info, example_info_addressed]).2 r.2 :=
  ⟨by decide, C13_address_fill_in example_consts (fun _ _ => 0)
    (0, [example_info, example_info_addressed]) probe_success 77 (some "h1".toList) none 0
    none rfl (by decide)⟩

/-- C14: evaluation at the failing input.  The discovery collaborator succeeds,
shm_open and ftruncate succeed and mmap fails, returning MAP_FAILED: the NULL
test of line 89 lets it pass, the parent writes through the pointer at line
125 and the process is killed, so smr_getinfo returns nothing.  The probe is
killed in exactly these cases, and smr_getinfo with it whenever the discovery
collaborator succeeded.  When fork fails the probe returns the int the parent
reads back from its own store.  The set-up failures the code catches
(shm_open, ftruncate, a NULL mapping) do degrade to unavailable: the probe
returns the error code, smr_getinfo returns 0, and the descriptors are those
it returns when the child's cross-process read failed. -/
theorem C14_mmap_failure_kills_discovery :
    (smr_check_cma_capability probe_mmap_failed = none ∧
    smr_getinfo example_consts (fun _ _ => 0) (0, [example_info]) probe_mmap_failed 77
      (some "h1".toList) none 0 none = none ∧
    smr_check_cma_capability probe_fork_failed = some 1000 ∧
    smr_check_cma_capability probe_setup_failed = some (-22) ∧
    smr_check_cma_capability probe_read_failed = some (-1) ∧
    smr_getinfo example_consts (fun _ _ => 0) (0, [example_info]) probe_setup_failed 77
      (some "h1".toList) none 0 none =
      smr_getinfo example_consts (fun _ _ => 0) (0, [example_info]) probe_read_failed 77
        (some "h1".toList) none 0 none) ∧
    (∀ probe : ProbeEnv, smr_check_cma_capability probe = none ↔
      (0 ≤ probe.shm_fd ∧ 0 ≤ probe.ftruncate_ret ∧ probe.shared_memory = .MAP_FAILED)) ∧
    (∀ (K : smr_consts) (fre : Nat → Nat → Int) (util : Int × List fi_info) (probe : ProbeEnv)
      (pid : Int) (node service : Option (List Char)) (flags : Nat) (hints : Option fi_hints),
      util.1 = 0 → 0 ≤ probe.shm_fd → 0 ≤ probe.ftruncate_ret →
      probe.shared_memory = .MAP_FAILED →
      smr_getinfo K fre util probe pid node service flags hints = none) ∧
    (∀ probe : ProbeEnv, 0 ≤ probe.shm_fd → 0 ≤ probe.ftruncate_ret →
      probe.shared_memory = .mapped → probe.fork_failed = true →
      smr_check_cma_capability probe = some probe.paddr_low) ∧
    (∀ (K : smr_consts) (fre : Nat → Nat → Int) (util : Int × List fi_info)
      (pid : Int) (node service : Option (List Char)) (flags : Nat) (hints : Option fi_hints)
      (p1 p2 : ProbeEnv),
      util.1 = 0 →
      (p1.shm_fd < 0 ∨ p1.ftruncate_ret < 0 ∨ p1.shared_memory = .NULL) →
      (0 ≤ p2.shm_fd ∧ 0 ≤ p2.ftruncate_ret ∧ p2.shared_memory = .mapped ∧
        p2.fork_failed = false ∧ p2.nread = -1) →
      smr_check_cma_capability p1 = some (-FI_EINVAL) ∧
      smr_check_cma_capability p2 = some (-1) ∧
      smr_getinfo K fre util p1 pid node service flags hints =
        smr_getinfo K fre util p2 pid node service flags hints ∧
      ∃ r, smr_getinfo K fre util p1 pid node service flags hints = some r ∧ r.1 = 0) := by
  refine ⟨⟨by decide, by decide, by decide, by decide, by decide, by decide⟩, ?_, ?_, ?_, ?_⟩
  · intro probe
    unfold smr_check_cma_capability
    by_cases h1 : probe.shm_fd < 0
    · simp only [h1, if_true]
      constructor
      · intro h; simp at h
      · rintro ⟨h, _⟩; omega
    by_cases h2 : probe.ftruncate_ret < 0
    · simp only [h1, h2, if_true, if_false]
      constructor
      · intro h; simp at h
      · rintro ⟨_, h, _⟩; omega
    have h1p : 0 ≤ probe.shm_fd := Int.not_lt.1 h1
    have h2p : 0 ≤ probe.ftruncate_ret := Int.not_lt.1 h2
    simp only [h1, h2, if_false]
    cases hm : probe.shared_memory with
    | NULL => simp
    | MAP_FAILED => simp [h1p, h2p]
    | mapped =>
      cases hf : probe.fork_failed with
      | true => simp
      | false =>
        by_cases h4 : probe.nread = -1
        · simp [h4]
        · simp [h4]
  · intro K fre util probe pid node service flags hints hutil h1 h2 h3
    apply smr_getinfo_killed K fre util probe pid node service flags hints hutil
    simp [smr_check_cma_capability, Int.not_lt.2 h1, Int.not_lt.2 h2, h3]
  · intro probe h1 h2 h3 h4
    simp [smr_check_cma_capability, Int.not_lt.2 h1, Int.not_lt.2 h2, h3, h4]
  · intro K fre util pid node service flags hints p1 p2 hutil h1 h2
    have e1 : smr_check_cma_capability p1 = some (-FI_EINVAL) := by
      unfold smr_check_cma_capability
      rcases h1 with h | h | h
      · simp [h]
      · split_ifs <;> simp_all
      · split_ifs <;> simp_all
    have e2 : smr_check_cma_capability p2 = some (-1) := by
      obtain ⟨a, b, c, d, e⟩ := h2
      simp [smr_check_cma_capability, Int.not_lt.2 a, Int.not_lt.2 b, c, d, e]
    refine ⟨e1, e2, ?_, ?_⟩
    · rw [smr_getinfo_returns K fre util p1 pid node service flags hints _ hutil e1,
        smr_getinfo_returns K fre util p2 pid node service flags hints _ hutil e2]
      refine congrArg some (congrArg (Prod.mk (0 : Int)) (List.map_congr_left ?_))
      intro cur _
      exact smr_getinfo_cur_cma K pid node service flags _ _ _ cur (by simp [FI_EINVAL])
        (by simp)
    · exact ⟨_, smr_getinfo_returns K fre util p1 pid node service flags hints _ hutil e1, rfl⟩

end Smr
